import Mathlib

/-!
Verification of the TalentAI resume-screening core (src/backend).

The Python source is shallowly embedded: text is modelled as `List Char`
(written `Str`), Python floats as `ℚ` (all arithmetic the claims touch is
exact decimal arithmetic), Python `int(x)` on a nonnegative float as the
integer floor, and the external sentence-transformer embedding model as an
opaque deterministic similarity oracle `sim : Str → Str → ℚ` giving the
cosine similarity of the embeddings of two texts.
-/

set_option maxHeartbeats 1000000
set_option maxRecDepth 100000

/- The Batteries rational-number operations are `@[irreducible]`, which blocks
`decide` on concrete rational computations; restore default reducibility so
that concrete fixtures evaluate. -/
set_option allowUnsafeReducibility true
attribute [local semireducible] Rat.mul Rat.inv Rat.add Rat.div Rat.sub Rat.neg
attribute [local semireducible] Rat.ofScientific

abbrev Str := List Char

/-- Coerce a Lean string literal to the `List Char` model of Python strings. -/
def str (s : String) : Str := s.data

/-- Python whitespace class (`\s`, and the characters stripped by `str.strip`). -/
def pySpace (c : Char) : Bool :=
  c = ' ' || c = '\t' || c = '\n' || c = '\r' || c = '\x0b' || c = '\x0c'

/-- Python `str.strip()`: drop leading and trailing whitespace. -/
def pyStrip (s : Str) : Str :=
  ((s.dropWhile pySpace).reverse.dropWhile pySpace).reverse

/-- Python `str.lower()` (ASCII; the corpus is ASCII). -/
def pyLower (s : Str) : Str := s.map Char.toLower

/-- Does `s` start with `pat`? -/
def startsWithStr : Str → Str → Bool
  | _, [] => true
  | [], _ :: _ => false
  | c :: cs, p :: ps => c = p && startsWithStr cs ps

/-- Python substring test `pat in s`. -/
def containsSub (s pat : Str) : Bool :=
  match s with
  | [] => startsWithStr [] pat
  | _ :: cs => startsWithStr s pat || containsSub cs pat

/-- Python `l[-n:]`: the last `n` elements. -/
def lastN (n : ℕ) (l : List α) : List α := l.drop (l.length - n)

/-- Python `sep.join(parts)`. -/
def joinSep (sep : Str) : List Str → Str
  | [] => []
  | [x] => x
  | x :: y :: rest => x ++ sep ++ joinSep sep (y :: rest)

/-- Python `text.split('.')` (keeps empty pieces). -/
def splitDot : Str → List Str
  | [] => [[]]
  | '.' :: cs => [] :: splitDot cs
  | c :: cs =>
    match splitDot cs with
    | [] => [[c]]
    | p :: ps => (c :: p) :: ps

/-- Decimal rendering of a natural number, as used by Python f-strings. -/
def natStr (n : ℕ) : Str := (Nat.repr n).data

/-- Keep the first occurrence of each element (Python set/dict insertion order). -/
def dedupKeep : List Str → List Str → List Str
  | [], _ => []
  | x :: xs, seen => if x ∈ seen then dedupKeep xs seen else x :: dedupKeep xs (x :: seen)

/-! ## Chunker (`ResumeScorer._create_chunks`, scorer.py lines 153-187) -/

/-- The non-empty stripped sentences of a text: `text.split('.')`, each
stripped, empty results skipped (the `if not sentence: continue` branch). -/
def sentencesOf (text : Str) : List Str :=
  ((splitDot text).map pyStrip).filter (· ≠ [])

/-- One iteration of the accumulation loop in `_create_chunks`, carrying
`(chunks, current_chunk, current_length)`; chunks are closed by joining with
`". "` and appending a trailing `"."`. -/
def renderChunk (g : List Str) : Str := joinSep (str ". ") g ++ str "."

/-- Loop body of `_create_chunks` (rendered-chunks version, as in the source). -/
def chunkStepR (n : ℕ) (st : List Str × List Str × ℕ) (s : Str) : List Str × List Str × ℕ :=
  let (chunks, cur, curLen) := st
  if curLen + s.length > n ∧ cur ≠ [] then
    (chunks ++ [renderChunk cur], [s], s.length)
  else
    (chunks, cur ++ [s], curLen + s.length)

/-- `ResumeScorer._create_chunks(text, chunk_size=n)`. -/
def createChunks (text : Str) (n : ℕ) : List Str :=
  let st := (sentencesOf text).foldl (chunkStepR n) ([], [], 0)
  let chunks := if st.2.1 = [] then st.1 else st.1 ++ [renderChunk st.2.1]
  if chunks = [] then [text] else chunks

/-- Same loop, but keeping each closed chunk as its list of sentences
(the grouping underlying `_create_chunks`, used to state content preservation). -/
def chunkStepG (n : ℕ) (st : List (List Str) × List Str × ℕ) (s : Str) :
    List (List Str) × List Str × ℕ :=
  let (chunks, cur, curLen) := st
  if curLen + s.length > n ∧ cur ≠ [] then
    (chunks ++ [cur], [s], s.length)
  else
    (chunks, cur ++ [s], curLen + s.length)

/-- The sentence groups of the chunking of `text` at size `n`. -/
def chunkGroups (text : Str) (n : ℕ) : List (List Str) :=
  let st := (sentencesOf text).foldl (chunkStepG n) ([], [], 0)
  if st.2.1 = [] then st.1 else st.1 ++ [st.2.1]

/-! ### Chunker lemmas -/

/-- Total character count of a sentence group (the loop's `current_length`). -/
def sumLen (g : List Str) : ℕ := (g.map List.length).sum

/-! ## Stable sorting (Python `list.sort` is stable; `np.argsort` modelled stable) -/

/-- Python's stable `list.sort(key=key, reverse=True)`: insertion sort placing
larger keys first; elements with equal keys keep their original order. -/
def sortByDesc [LinearOrder β] (key : α → β) (l : List α) : List α :=
  List.insertionSort (fun a b => key b ≤ key a) l

/-- Python's stable ascending `sorted`/`np.argsort` order. -/
def sortByAsc [LinearOrder β] (key : α → β) (l : List α) : List α :=
  List.insertionSort (fun a b => key a ≤ key b) l

/-- Python `enumerate` starting from `i`. -/
def withIdxFrom (i : ℕ) : List α → List (ℕ × α)
  | [] => []
  | x :: xs => (i, x) :: withIdxFrom (i + 1) xs

/-- Python `enumerate(l)`. -/
def withIdx (l : List α) : List (ℕ × α) := withIdxFrom 0 l

/-! ## Keyword/alias extractor (`ResumeScorer._extract_keywords`, scorer.py 220-263) -/

/-- The fixed controlled keyword vocabulary, in canonical order. -/
def keywords_db : List Str :=
  [str "python", str "javascript", str "java", str "react", str "node", str "sql",
   str "cloud", str "api", str "database", str "frontend", str "backend",
   str "fullstack", str "mobile", str "devops", str "agile", str "testing",
   str "performance", str "security", str "scalability"]

/-- The alias table of `_extract_keywords` (`aliases.get(keyword, [])`). -/
def keywordAliases (k : Str) : List Str :=
  if k = str "node" then [str "node.js", str "nodejs", str "express"]
  else if k = str "react" then [str "react.js", str "reactjs", str "nextjs", str "next.js"]
  else if k = str "sql" then [str "postgresql", str "mysql", str "psql", str "mssql", str "sqlite"]
  else if k = str "cloud" then
    [str "aws", str "amazon web services", str "gcp", str "google cloud", str "azure"]
  else if k = str "devops" then
    [str "ci/cd", str "cicd", str "pipeline", str "docker", str "kubernetes"]
  else if k = str "testing" then
    [str "jest", str "pytest", str "unit testing", str "e2e", str "cypress"]
  else if k = str "api" then [str "rest", str "graphql", str "restful"]
  else []

/-- `ResumeScorer._extract_keywords`: canonical keywords whose literal text or
one of whose aliases occurs in the lower-cased input, in vocabulary order,
deduplicated keeping first occurrences (a no-op given the distinct vocabulary,
kept to mirror the source). -/
def extract_keywords (text : Str) : List Str :=
  let textLower := pyLower text
  let found := keywords_db.filter (fun k =>
    containsSub textLower k || (keywordAliases k).any (containsSub textLower))
  dedupKeep found []

/-- The fixed technical-skill vocabulary of `_extract_matching_skills`. -/
def skills_db : List Str :=
  [str "python", str "javascript", str "typescript", str "java", str "c++", str "c#",
   str "php", str "ruby", str "go", str "rust", str "sql", str "postgresql", str "mysql",
   str "mongodb", str "redis", str "elasticsearch", str "react", str "vue", str "angular",
   str "nextjs", str "node.js", str "express", str "django", str "flask", str "aws",
   str "azure", str "gcp", str "docker", str "kubernetes", str "jenkins", str "git",
   str "rest", str "graphql", str "api", str "microservices", str "machine learning",
   str "deep learning", str "tensorflow", str "pytorch"]

/-- Helper for Python `str.title()`: capitalise each letter that follows a
non-letter, lower-case the other letters. -/
def pyTitleGo : Bool → Str → Str
  | _, [] => []
  | prevNonAlpha, c :: cs =>
    if c.isAlpha then (if prevNonAlpha then c.toUpper else c.toLower) :: pyTitleGo false cs
    else c :: pyTitleGo true cs

/-- Python `str.title()` (ASCII). -/
def pyTitle (s : Str) : Str := pyTitleGo true s

/-- `ResumeScorer._extract_matching_skills`. -/
def extract_matching_skills (resume_text job_description : Str) : List Str :=
  let resumeLower := pyLower resume_text
  let jobLower := pyLower job_description
  ((skills_db.filter (fun sk =>
    containsSub resumeLower sk && containsSub jobLower sk)).map pyTitle).take 10

/-! ## Scorer (`ResumeScorer.score_resumes`, scorer.py 27-151) -/

/-- Contact/header noise tokens used by the evidence filter (scorer.py line 77). -/
def evidenceNoiseTokens : List Str :=
  [str "email", str "phone", str "linkedin", str "github", str "http", str "@"]

/-- Does a lower-cased snippet contain any contact-noise token? -/
def evidenceNoise (low : Str) : Bool := evidenceNoiseTokens.any (containsSub low)

/-- `np.argsort(scores)`: the indices of `scores` in ascending order of value.
numpy's default sort kind is not documented stable; it is modelled as the
stable ascending order, matching its observed behaviour on small inputs. -/
def argsortAsc (scores : List ℚ) : List ℕ :=
  (sortByAsc (fun p => p.2) (withIdx scores)).map (·.1)

/-- `np.argsort(chunk_scores)[-5:][::-1]` (scorer.py line 71). -/
def topIdx (scores : List ℚ) : List ℕ := (lastN 5 (argsortAsc scores)).reverse

/-- Truncate chunk `i` to 240 characters and strip (`chunks[int(idx)][:240].strip()`). -/
def snippetOf (chunks : List Str) (i : ℕ) : Str := pyStrip ((chunks.getD i []).take 240)

/-- Annotate a snippet with the job keywords it contains (scorer.py lines 80-83). -/
def annotateMatched (jobKw : List Str) (raw : Str) : Str :=
  let matched := (extract_keywords raw).filter (· ∈ jobKw)
  if matched ≠ [] then raw ++ str "  | matched: " ++ joinSep (str ", ") matched else raw

/-- The evidence loop of `score_resumes` (scorer.py lines 73-86): walk the
candidate indices, skip noisy snippets, annotate the rest, stop at 3. -/
def evidenceLoop (chunks : List Str) (jobKw : List Str) : List ℕ → List Str → List Str
  | [], acc => acc
  | i :: rest, acc =>
    let raw := snippetOf chunks i
    if evidenceNoise (pyLower raw) then evidenceLoop chunks jobKw rest acc
    else
      let acc2 := acc ++ [annotateMatched jobKw raw]
      if 3 ≤ acc2.length then acc2 else evidenceLoop chunks jobKw rest acc2

/-- Evidence selection of `score_resumes` (scorer.py lines 68-86). -/
def mkEvidence (chunks : List Str) (chunkScores : List ℚ) (jobKw : List Str) : List Str :=
  if chunkScores ≠ [] then evidenceLoop chunks jobKw (topIdx chunkScores) [] else []

/-- A processed resume as consumed by the scorer: the dict built in
`sort_resumes` (main.py lines 173-181) from the external extraction
collaborators (pdfplumber/spaCy/HF pipelines and `_infer_name`). -/
structure ProcessedResume where
  name : Str
  filename : Str
  raw_text : Str
  entities : List (Str × List Str)
  summary : Str
  skills : List Str
  education : List Str
deriving DecidableEq

/-- Python `entities.get(label, [])` on the entity dict. -/
def entGet (entities : List (Str × List Str)) (k : Str) : List Str :=
  (((entities.find? (fun p => p.1 = k)).map (fun p => p.2)).getD [])

/-- The per-resume dict appended by `score_resumes` (scorer.py lines 127-146). -/
structure ScoreData where
  name : Str
  filename : Str
  score : ℚ
  semantic_score : ℚ
  skill_match_ratio : ℚ
  match_percentage : ℤ
  summary : Str
  skills : List Str
  experience : List Str
  education : List Str
  feedback : Str
  evidence : List Str
  improvements : List Str
  jd_skills : List Str
  missing_skills : List Str
  skill_evidence : List (Str × Str)
  experience_signal : ℚ
  raw_text : Str
deriving DecidableEq

/-- `int(min(100, max(0, combined_score * 100)))` (scorer.py line 115); Python
`int` truncates toward zero, which on this nonnegative value is the floor. -/
def matchPercentageOf (combined : ℚ) : ℤ := ⌊min 100 (max 0 (combined * 100))⌋

/-- `ResumeScorer._generate_feedback` (scorer.py 265-316). -/
def generate_feedback (semantic_score skill_match_ratio : ℚ) (skills : List Str)
    (entities : List (Str × List Str)) : Str :=
  let p1 :=
    if semantic_score > 0.75 then str "Strong semantic match with job requirements."
    else if semantic_score > 0.5 then str "Good match with job requirements."
    else if semantic_score > 0.3 then str "Moderate match with job requirements."
    else str "Limited semantic match with job requirements."
  let p2 :=
    if skill_match_ratio > 0.7 then
      str "Excellent skill alignment with " ++ natStr skills.length ++
        str " relevant skills identified."
    else if skill_match_ratio > 0.4 then
      str "Good skill overlap with " ++ natStr skills.length ++ str " relevant skills."
    else if skill_match_ratio > 0.1 then
      str "Some skill overlap with " ++ natStr skills.length ++ str " relevant skills."
    else str "Limited skill overlap with job requirements."
  let parts := [p1, p2]
  let orgs := entGet entities (str "ORG")
  let parts := if orgs ≠ [] then
      parts ++ [str "Candidate has experience at " ++ natStr orgs.length ++ str " organizations."]
    else parts
  let parts := if entGet entities (str "DATE") ≠ [] then
      parts ++ [str "Strong educational background indicated."]
    else parts
  joinSep (str " ") parts

/-- `ResumeScorer._generate_improvements` (scorer.py 318-334). -/
def generate_improvements (job_keywords resume_keywords matched_skills : List Str) :
    List Str :=
  let gaps := job_keywords.filter (fun kw => kw ∉ resume_keywords)
  let imps := (gaps.take 5).map (fun g =>
    str "Strengthen experience with " ++ g ++ str ": build a small project or certification.")
  let imps := if matched_skills.length < max 3 (job_keywords.length / 2) then
      imps ++ [str "Highlight concrete achievements using metrics to improve semantic relevance."]
    else imps
  if imps = [] then [str "Great alignment. Emphasize recent work matching the job requirements."]
  else imps

/-- Python `str.splitlines()` (ASCII newline conventions). -/
def pySplitlinesGo (cur : Str) : Str → List Str
  | [] => if cur = [] then [] else [cur.reverse]
  | '\r' :: '\n' :: rest => cur.reverse :: pySplitlinesGo [] rest
  | '\r' :: rest => cur.reverse :: pySplitlinesGo [] rest
  | '\n' :: rest => cur.reverse :: pySplitlinesGo [] rest
  | c :: rest => pySplitlinesGo (c :: cur) rest

/-- Python `str.splitlines()`. -/
def pySplitlines (s : Str) : List Str := pySplitlinesGo [] s

/-- The per-keyword evidence snippet of `score_resumes` (scorer.py 100-111):
first matching line of the raw text, else first matching chunk, else the
literal marker `"found"`. -/
def skillEvidenceSnippet (raw_text : Str) (chunks : List Str) (k : Str) : Str :=
  let lineSnippet :=
    match (pySplitlines raw_text).find? (fun line => containsSub (pyLower line) k) with
    | some line => (pyStrip line).take 200
    | none => []
  let snip :=
    if lineSnippet = [] ∧ chunks ≠ [] then
      match chunks.find? (fun ch => containsSub (pyLower ch) k) with
      | some ch => (pyStrip ch).take 200
      | none => []
    else lineSnippet
  if snip = [] then str "found" else snip

/-- The body of the `for resume_data in processed_resumes` loop of
`score_resumes` (scorer.py 47-146), producing one `ScoreData`. The Python set
intersection `set(jd_skills) & set(resume_keywords)` iterates in an
unspecified order over a dict whose content is order-independent; it is
modelled in job-keyword order. -/
def scoreOne (sim : Str → Str → ℚ) (job_description : Str) (resume : ProcessedResume) :
    ScoreData :=
  let raw_text := resume.raw_text
  let chunks := createChunks raw_text 500
  let chunk_scores := chunks.map (fun ch => sim job_description ch)
  let semantic_score : ℚ :=
    if chunk_scores ≠ [] then chunk_scores.sum / chunk_scores.length else 0
  let job_keywords := extract_keywords job_description
  let evidence := mkEvidence chunks chunk_scores job_keywords
  let skills :=
    if resume.skills ≠ [] then resume.skills
    else extract_matching_skills raw_text job_description
  let resume_keywords := extract_keywords raw_text
  let skill_match_count := (job_keywords.filter (· ∈ resume_keywords)).length
  let skill_match_ratio : ℚ :=
    if job_keywords ≠ [] then (skill_match_count : ℚ) / job_keywords.length else 0
  let jd_skills := job_keywords
  let missing_skills := jd_skills.filter (fun k => k ∉ resume_keywords)
  let skill_evidence := (jd_skills.filter (· ∈ resume_keywords)).map
    (fun k => (k, skillEvidenceSnippet raw_text chunks k))
  let combined_score := 0.85 * semantic_score + 0.15 * skill_match_ratio
  let orgs := entGet resume.entities (str "ORG")
  { name := resume.name
    filename := resume.filename
    score := combined_score
    semantic_score := semantic_score
    skill_match_ratio := skill_match_ratio
    match_percentage := matchPercentageOf combined_score
    summary := resume.summary
    skills := skills
    experience := orgs.take 5
    education := (if resume.education ≠ [] then resume.education
      else entGet resume.entities (str "EDUCATION")).take 3
    feedback := generate_feedback semantic_score skill_match_ratio skills resume.entities
    evidence := evidence
    improvements := generate_improvements job_keywords resume_keywords skills
    jd_skills := jd_skills
    missing_skills := missing_skills
    skill_evidence := skill_evidence
    experience_signal := min 1 ((orgs.length : ℚ) / 8)
    raw_text := raw_text }

/-- `ResumeScorer.score_resumes`: score each resume, then stable-sort by match
percentage descending (scorer.py lines 148-151). -/
def score_resumes (sim : Str → Str → ℚ) (job_description : Str)
    (processed : List ProcessedResume) : List ScoreData :=
  sortByDesc (fun r => r.match_percentage) (processed.map (scoreOne sim job_description))

/-- A resume fixture whose single chunk is `"hi."`. -/
def docHi : ProcessedResume :=
  ⟨str "Al B", str "a.pdf", str "hi", [], str "sum", [str "X"], []⟩

/-- A constant similarity oracle giving `0.006`. -/
def simSmall : Str → Str → ℚ := fun _ _ => 3 / 500

/-- The match-percentage computation exactly as claim C1 states it: scaled,
rounded to the nearest integer, then clamped. -/
def claimMatchPercentage (semantic skillRatio : ℚ) : ℤ :=
  min 100 (max 0 (round (100 * (0.85 * semantic + 0.15 * skillRatio))))

/-! ### C5: evidence selection -/

/-- One candidate index of the evidence loop: `none` when the snippet is
contact noise, otherwise the annotated snippet. -/
def evidenceStep (chunks jobKw : List Str) (i : ℕ) : Option Str :=
  let raw := snippetOf chunks i
  if evidenceNoise (pyLower raw) then none else some (annotateMatched jobKw raw)

/-- The evidence pipeline in take/filter/map form (the amended claim C5): top 5
indices by similarity descending with ties in reverse original order, snippets
truncated to 240 and stripped, contact-noise snippets dropped, survivors
annotated with matched job keywords, at most 3 kept. -/
def evidenceSpecAmended (chunks : List Str) (scores : List ℚ) (jobKw : List Str) : List Str :=
  (((((argsortAsc scores).reverse.take 5).map (snippetOf chunks)).filter
      (fun raw => !evidenceNoise (pyLower raw))).map (annotateMatched jobKw)).take 3

/-- The evidence selection exactly as claim C5 words it: stable descending by
similarity with ties in ORIGINAL chunk order. -/
def evidenceClaimStable (chunks : List Str) (scores : List ℚ) (jobKw : List Str) : List Str :=
  (((((sortByDesc (fun p => p.2) (withIdx scores)).take 5).map
      (fun p => snippetOf chunks p.1)).filter
      (fun raw => !evidenceNoise (pyLower raw))).map (annotateMatched jobKw)).take 3

/-- A resume with two equal-similarity chunks (300 a's and 300 b's). -/
def docAB : ProcessedResume :=
  ⟨str "Al B", str "ab.pdf",
    List.replicate 300 'a' ++ str ". " ++ List.replicate 300 'b' ++ str ".",
    [], str "s", [str "X"], []⟩

/-- A constant similarity oracle: every chunk ties. -/
def simZero : Str → Str → ℚ := fun _ _ => 0

/-! ## The API boundary `sort_resumes` (main.py 97-246) -/

/-- One uploaded file: filename plus raw content (modelled as text). -/
structure FileUpload where
  filename : Str
  content : Str
deriving DecidableEq

/-- The per-request process environment: the stream of fresh UUIDs produced by
`uuid.uuid4()` (one per candidate, in enumeration order) and the measured
`time.time() - start_time` duration. -/
structure ReqEnv where
  uuids : ℕ → Str
  elapsed : ℚ

/-- The external per-file extraction collaborators of `sort_resumes`
(pdfplumber text extraction, spaCy/HF entity extraction, summary, skills,
education, and `_infer_name`), modelled as an oracle; `.error` models a raised
exception, and an `.ok` result carries the dict built at main.py 173-181. -/
def ProcessOracle : Type := FileUpload → Except Str ProcessedResume

/-- The body of the per-file loop of `sort_resumes` (main.py 150-184): skip
files without a filename, with empty content, with empty extracted text, or
whose processing raises; `continue` with the rest either way. -/
def processOne (proc : ProcessOracle) (f : FileUpload) : Option ProcessedResume :=
  if f.filename = [] then none
  else if f.content = [] then none
  else match proc f with
    | .error _ => none
    | .ok r => if r.raw_text = [] then none else some r

/-- A response candidate (main.py 66-85, 197-217): the `ScoreData` content
plus the freshly generated `id` (the camelCased field list of the source is
isomorphic to this pairing). -/
structure Candidate where
  id : Str
  core : ScoreData
deriving DecidableEq

/-- The `SortResponse` model (main.py 87-90). -/
structure SortResponse where
  candidates : List Candidate
  jobDescription : Str
  analysisTime : ℚ
deriving DecidableEq

/-- `sort_resumes` (main.py 97-238): validate the job description and file
list, process each file skipping per-document failures, abort with HTTP 400
when no document survives, score and rank the survivors, attach fresh ids,
sort by match percentage (again, stably), and return the response. -/
def sort_resumes (env : ReqEnv) (proc : ProcessOracle) (sim : Str → Str → ℚ)
    (job_description : Str) (resumes : List FileUpload) : Except ℕ SortResponse :=
  if pyStrip job_description = [] then .error 400
  else if resumes = [] then .error 400
  else
    let processed := resumes.filterMap (processOne proc)
    if processed = [] then .error 400
    else
      let scores := score_resumes sim job_description processed
      let candidates := (withIdx scores).map (fun p => Candidate.mk (env.uuids p.1) p.2)
      .ok ⟨sortByDesc (fun c => c.core.match_percentage) candidates, job_description,
        env.elapsed⟩

/-- Project a candidate back to its environment-independent scoring content. -/
def candCore (c : Candidate) : ScoreData := c.core

/-- A valid uploaded file fixture. -/
def fileC : FileUpload := ⟨str "a.pdf", str "x"⟩

/-- A file fixture whose processing raises. -/
def fileBad : FileUpload := ⟨str "bad.pdf", str "y"⟩

/-- An extraction oracle fixture: raises on `bad.pdf`, else yields `docHi`. -/
def procC : ProcessOracle := fun f =>
  if f.filename = str "bad.pdf" then .error (str "boom") else .ok docHi

/-- A request environment fixture with decimal-counter UUIDs. -/
def envC : ReqEnv := ⟨fun i => natStr i, 1⟩

/-- Fallback response used to name the successful response of a fixture run. -/
def exceptD (e : Except ε α) (d : α) : α :=
  match e with
  | .ok a => a
  | .error _ => d

/-- The junk fallback response (never used on the fixture runs). -/
def junkResp : SortResponse := ⟨[], [], 0⟩

/-! ## Conversation cache (`ChatStore`, main.py 41-63) -/

/-- One stored conversation message (`{"role": ..., "text": ..., "ts": now}`). -/
structure ChatMsg where
  role : Str
  text : Str
  ts : ℚ
deriving DecidableEq

/-- One conversation record (`{"messages": [...], "updated": now}`). -/
structure ChatRec where
  messages : List ChatMsg
  updated : ℚ
deriving DecidableEq

/-- Python dict lookup `self.data.get(cid)` over an insertion-ordered
association list with unique keys. -/
def dictGet : List (Str × ChatRec) → Str → Option ChatRec
  | [], _ => none
  | p :: ps, cid => if p.1 = cid then some p.2 else dictGet ps cid

/-- Python dict store `self.data[cid] = entry`: update in place, else append. -/
def dictSet : List (Str × ChatRec) → Str → ChatRec → List (Str × ChatRec)
  | [], cid, rec => [(cid, rec)]
  | p :: ps, cid, rec => if p.1 = cid then (cid, rec) :: ps else p :: dictSet ps cid rec

/-- Python dict removal `self.data.pop(cid, None)`. -/
def dictPop : List (Str × ChatRec) → Str → List (Str × ChatRec)
  | [], _ => []
  | p :: ps, cid => if p.1 = cid then dictPop ps cid else p :: dictPop ps cid

/-- The `ChatStore` state: TTL, message bound, per-conversation records.
Clock readings (`time.time()`) are passed explicitly as `now`. -/
structure ChatStore where
  ttl : ℚ
  max_messages : ℕ
  data : List (Str × ChatRec)
deriving DecidableEq

/-- The store constructed at main.py line 63 (`ChatStore()`, defaults
`ttl_sec=86400`, `max_messages=60`). -/
def chatStoreInit : ChatStore := ⟨86400, 60, []⟩

/-- `ChatStore.add` (main.py 46-53): append the message, clamp to the last
`max_messages` when the bound is exceeded, refresh the timestamp. No eviction
happens here. -/
def ChatStore.add (st : ChatStore) (cid role text : Str) (now : ℚ) : ChatStore :=
  let entry := (dictGet st.data cid).getD ⟨[], 0⟩
  let msgs := entry.messages ++ [⟨role, text, now⟩]
  let msgs := if msgs.length > st.max_messages then lastN st.max_messages msgs else msgs
  ⟨st.ttl, st.max_messages, dictSet st.data cid ⟨msgs, now⟩⟩

/-- `ChatStore.get` (main.py 54-61): absent id gives `[]`; an entry read more
than TTL after its last update is lazily evicted and gives `[]`; otherwise the
transcript is returned in order as `(role, text)` pairs. -/
def ChatStore.get (st : ChatStore) (cid : Str) (now : ℚ) :
    List (Str × Str) × ChatStore :=
  match dictGet st.data cid with
  | none => ([], st)
  | some e =>
    if now - e.updated > st.ttl then ([], ⟨st.ttl, st.max_messages, dictPop st.data cid⟩)
    else (e.messages.map (fun m => (m.role, m.text)), st)

/-- A concrete conversation store fixture holding one message under `"c1"`. -/
def stC8 : ChatStore := ⟨86400, 60, [(str "c1", ⟨[⟨str "user", str "hello", 5⟩], 5⟩)]⟩

/-! ## Question answering (`candidate_ask`, main.py 248-511)

The `re` substitutions and searches of the source are embedded as explicit
scanners over `Str`. Each scanner walks left to right as `re.sub`/`re.findall`
do (leftmost match, continue after the match), with each pattern's matcher
hand-coded following the pattern's greedy semantics. The previous character is
threaded through for `\b` word-boundary tests. -/

/-- Python `\w` (ASCII). -/
def isWordCh (c : Char) : Bool := c.isAlpha || c.isDigit || c = '_'

def isDigitCh (c : Char) : Bool := c.isDigit

/-- Python `\S`. -/
def nonSpace (c : Char) : Bool := !pySpace c

/-- Is the character before the current position a word character? (Start of
string counts as non-word.) -/
def wordOpt : Option Char → Bool
  | none => false
  | some p => isWordCh p

/-- Word boundary `\b` between the previous character and `c`. -/
def bdry (prev : Option Char) (c : Char) : Bool := wordOpt prev != isWordCh c

/-- Strip a (lower-case) literal case-insensitively, returning the rest. -/
def stripCI : Str → Str → Option Str
  | [], cs => some cs
  | _ :: _, [] => none
  | p :: ps, c :: cs => if c.toLower = p then stripCI ps cs else none

/-- Last character of a non-empty run (placeholder space for the empty run). -/
def lastD (l : Str) : Char := l.getLast?.getD ' '

/-- `re.sub` scanning: at each position try `matchAt prev cs`; on a match
(returning the last matched character and the rest) emit the replacement and
continue after the match; otherwise keep the character and advance. The fuel
is the input length; every step consumes at least one character. -/
def subScan (matchAt : Option Char → Str → Option (Char × Str)) (repl : Str) :
    ℕ → Option Char → Str → Str
  | 0, _, cs => cs
  | _ + 1, _, [] => []
  | fuel + 1, prev, c :: cs =>
    match matchAt prev (c :: cs) with
    | some (lastc, rest) => repl ++ subScan matchAt repl fuel (some lastc) rest
    | none => c :: subScan matchAt repl fuel (some c) cs

def subRe (matchAt : Option Char → Str → Option (Char × Str)) (repl cs : Str) : Str :=
  subScan matchAt repl cs.length none cs

/-- `re.findall` scanning, collecting one capture per match. -/
def findScan (matchAt : Option Char → Str → Option (κ × Char × Str)) :
    ℕ → Option Char → Str → List κ
  | 0, _, _ => []
  | _ + 1, _, [] => []
  | fuel + 1, prev, c :: cs =>
    match matchAt prev (c :: cs) with
    | some (cap, lastc, rest) => cap :: findScan matchAt fuel (some lastc) rest
    | none => findScan matchAt fuel (some c) cs

def findRe (matchAt : Option Char → Str → Option (κ × Char × Str)) (cs : Str) : List κ :=
  findScan matchAt cs.length none cs

/-- `re.search` as a Boolean: does a match start anywhere? -/
def searchScan (matchAt : Option Char → Str → Option (Char × Str)) :
    Option Char → Str → Bool
  | _, [] => false
  | prev, c :: cs =>
    match matchAt prev (c :: cs) with
    | some _ => true
    | none => searchScan matchAt (some c) cs

def searchRe (matchAt : Option Char → Str → Option (Char × Str)) (cs : Str) : Bool :=
  searchScan matchAt none cs

/-- Matcher for `\(cid:\d+\)` (IGNORECASE). -/
def cidParenAt (_ : Option Char) (cs : Str) : Option (Char × Str) :=
  match cs with
  | '(' :: cs2 =>
    match stripCI (str "cid:") cs2 with
    | some cs3 =>
      let ds := cs3.takeWhile isDigitCh
      if ds = [] then none
      else
        match cs3.dropWhile isDigitCh with
        | ')' :: rest => some (')', rest)
        | _ => none
    | none => none
  | _ => none

/-- Matcher for `\bcid:\d+\b` (IGNORECASE). -/
def cidBareAt (prev : Option Char) (cs : Str) : Option (Char × Str) :=
  if wordOpt prev then none
  else
    match stripCI (str "cid:") cs with
    | some cs2 =>
      let ds := cs2.takeWhile isDigitCh
      if ds = [] then none
      else
        match cs2.dropWhile isDigitCh with
        | [] => some (lastD ds, [])
        | r :: rest => if isWordCh r then none else some (lastD ds, r :: rest)
    | none => none

/-- Matcher for `https?://\S+|www\.\S+` (IGNORECASE): the left alternative is
tried first; `s` is optional; `\S+` is a maximal non-space run. -/
def urlAt (_ : Option Char) (cs : Str) : Option (Char × Str) :=
  let tail := fun (cs3 : Str) =>
    match stripCI (str "://") cs3 with
    | none => none
    | some cs4 =>
      let run := cs4.takeWhile nonSpace
      if run = [] then none else some (lastD run, cs4.dropWhile nonSpace)
  let alt1 :=
    match stripCI (str "http") cs with
    | none => none
    | some cs2 =>
      match cs2 with
      | c :: cs3 =>
        if c.toLower = 's' then
          match tail cs3 with
          | some r => some r
          | none => tail cs2
        else tail cs2
      | [] => tail cs2
  match alt1 with
  | some r => some r
  | none =>
    match stripCI (str "www.") cs with
    | none => none
    | some cs2 =>
      let run := cs2.takeWhile nonSpace
      if run = [] then none else some (lastD run, cs2.dropWhile nonSpace)

/-- The character class `[\w\.-]` of the email pattern. -/
def isEmailCh (c : Char) : Bool := isWordCh c || c = '.' || c = '-'

/-- Tail `\.\w+\b` of the email pattern inside the maximal post-`@` class run:
the greedy `[\w\.-]+` backtracks to the last dot followed by a word character,
and `\w+` then takes the maximal word run. -/
def emailTail (r2 : Str) : Option (Char × Str) :=
  let ks := (List.range r2.length).filter (fun k =>
    decide (1 ≤ k) && (r2.getD k ' ' = '.') && isWordCh (r2.getD (k + 1) ' '))
  match ks.getLast? with
  | none => none
  | some k =>
    let afterDot := r2.drop (k + 1)
    let run := afterDot.takeWhile isWordCh
    some (lastD run, afterDot.dropWhile isWordCh)

/-- Matcher for `\b[\w\.-]+@[\w\.-]+\.\w+\b`. -/
def emailAt (prev : Option Char) (cs : Str) : Option (Char × Str) :=
  match cs with
  | c :: _ =>
    if isEmailCh c && bdry prev c then
      match cs.dropWhile isEmailCh with
      | '@' :: cs2 =>
        let r2 := cs2.takeWhile isEmailCh
        match emailTail r2 with
        | some (lastc, leftover) => some (lastc, leftover ++ cs2.dropWhile isEmailCh)
        | none => none
      | _ => none
    else none
  | [] => none

/-- The character class `[\d\-\s]` of the phone pattern. -/
def isPhoneCh (c : Char) : Bool := isDigitCh c || c = '-' || pySpace c

/-- Matcher for `\+?\d[\d\-\s]{7,}\d`: optional plus, a digit, a greedy class
run of which at least 7 characters are kept, and a final digit (the greedy
run backtracks to the last digit at offset ≥ 7). -/
def phoneAt (_ : Option Char) (cs : Str) : Option (Char × Str) :=
  let core := fun (cs1 : Str) =>
    match cs1 with
    | d :: cs2 =>
      if isDigitCh d then
        let r := cs2.takeWhile isPhoneCh
        let ks := (List.range r.length).filter (fun k =>
          decide (7 ≤ k) && isDigitCh (r.getD k ' '))
        match ks.getLast? with
        | none => none
        | some k => some (r.getD k ' ', cs2.drop (k + 1))
      else none
    | [] => none
  match cs with
  | '+' :: cs1 => core cs1
  | _ => core cs

/-- Matcher for `\s{2,}`. -/
def multiSpaceAt (_ : Option Char) (cs : Str) : Option (Char × Str) :=
  let run := cs.takeWhile pySpace
  if 2 ≤ run.length then some (lastD run, cs.dropWhile pySpace) else none

/-- The cleanup pipeline of `candidate_ask` (main.py 259-265): strip
`(cid:N)` artifacts, bare `cid:N` tokens, URLs, emails and phone numbers, and
collapse whitespace runs to a single space. -/
def cleanTxt (resume_text : Str) : Str :=
  subRe multiSpaceAt (str " ")
    (subRe phoneAt []
      (subRe emailAt []
        (subRe urlAt []
          (subRe cidBareAt []
            (subRe cidParenAt [] resume_text)))))

/-- Contact/link tokens of `is_noise` (main.py 270). -/
def noiseTokens1 : List Str :=
  [str "email", str "phone", str "linkedin", str "github", str "http", str "https",
   str "@", str "+91", str "+1 ", str "www."]

/-- TLD fragments of `is_noise` (main.py 272). -/
def noiseTokens2 : List Str := [str ".com", str ".net", str ".org", str ".in/", str ".io"]

/-- `is_noise` (main.py 267-285): contact/link markers, short lines, heavy
delimiter use, or digit-dominated lines. -/
def is_noise (s : Str) : Bool :=
  let l := pyLower s
  if noiseTokens1.any (containsSub l) then true
  else if noiseTokens2.any (containsSub l) then true
  else if s.length < 25 then true
  else if 3 ≤ (s.filter (fun c => c = '|' || c = ':' || c = '/' || c = '@')).length then true
  else
    let letters := (s.filter Char.isAlpha).length
    let digits := (s.filter Char.isDigit).length
    letters ≠ 0 && (0.7 : ℚ) < (digits : ℚ) / ((max 1 letters : ℕ) : ℚ)

/-- Generic single-character split (used for the `[\n\r]+` line split; the
maximal-run delimiter semantics agree after empty pieces are dropped). -/
def splitChar (p : Char → Bool) : Str → List Str
  | [] => [[]]
  | c :: cs =>
    if p c then [] :: splitChar p cs
    else
      match splitChar p cs with
      | [] => [[c]]
      | piece :: ps => (c :: piece) :: ps

def isNL (c : Char) : Bool := c = '\n' || c = '\r'

/-- Bullet class `[-*\d]` of the leading-bullet strip (main.py 291). -/
def isBulletCh (c : Char) : Bool := c = '-' || c = '*' || isDigitCh c

/-- `re.sub(r"^\s*[-*\d]+[.)]?\s*", "", ln)`: drop a leading bullet/numbering
token (anchored; the line is unchanged when no bullet character follows the
leading spaces). -/
def stripBullet (ln : Str) : Str :=
  let afterSp := ln.dropWhile pySpace
  let bullets := afterSp.takeWhile isBulletCh
  if bullets = [] then ln
  else
    let rest := afterSp.dropWhile isBulletCh
    let rest2 := match rest with
      | '.' :: r => r
      | ')' :: r => r
      | r => r
    rest2.dropWhile pySpace

/-- The noise-filtered line list of `candidate_ask` (main.py 287-296). -/
def linesOf (txt : Str) : List Str :=
  let raw_lines := ((splitChar isNL txt).map pyStrip).filter (· ≠ [])
  (raw_lines.map (fun ln => pyStrip (stripBullet ln))).filter
    (fun l => l ≠ [] && !is_noise l)

/-- The heading alternatives of main.py line 300 (`projects?` expanded). -/
def headingWords : List Str :=
  [str "projects", str "project", str "experience", str "work experience",
   str "education", str "skills", str "achievements", str "certifications"]

/-- Does a lower-cased line fully match the heading pattern
`(?i)(projects?|experience|...)\b[:\-]?`? -/
def isHeading (lower : Str) : Bool :=
  headingWords.any (fun w => lower = w || lower = w ++ [':'] || lower = w ++ ['-'])

/-- The heading index of `candidate_ask` (main.py 298-301). -/
def headingsOf (lines : List Str) : List (ℕ × Str) :=
  ((withIdx lines).filter (fun p => isHeading (pyLower p.2))).map
    (fun p => (p.1, pyLower p.2))

/-- Per-line cleanup inside `section_slice` (main.py 315-321). -/
def sectionLineClean (s : Str) : Str :=
  pyStrip (subRe emailAt [] (subRe urlAt [] s))

/-- `section_slice(name, max_len)` (main.py 302-322). -/
def section_slice (lines : List Str) (headings : List (ℕ × Str)) (name : Str)
    (max_len : ℕ) : List Str :=
  let targets := (headings.filter (fun p => containsSub p.2 name)).map (fun p => p.1)
  match targets with
  | [] => []
  | t :: _ =>
    let start := t + 1
    let endIdx := ((headings.filter (fun p => start < p.1)).map (fun p => p.1)).head?
    let seg := match endIdx with
      | some e => (lines.drop start).take (e - start)
      | none => (lines.drop start).take max_len
    (((seg.map sectionLineClean).filter (fun s2 => s2 ≠ [] && !is_noise s2)).take max_len)

/-- A parsed transient-history item (`{"role": ..., "text": ...}`); the
endpoint's `json.loads` transport is modelled as already parsed, `none`
standing for an absent, empty or unparseable payload. -/
structure Hist where
  role : Str
  text : Str
deriving DecidableEq

/-- Context fusion (main.py 333-349): merge the last 10 cache entries with the
last 10 transient items, keep the last 10 of the merge, skip empty or noisy
texts, render as `Role: text` pairs joined by `" | "`. (The source also
collects `recent_user_texts`, which nothing reads; it is omitted.) -/
def buildCtx (serverHist : List Hist) (items : List Hist) : Str :=
  let merged := (if serverHist ≠ [] then lastN 10 serverHist else []) ++ lastN 10 items
  let pairs := (lastN 10 merged).foldl
    (fun (pairs : List Str) (it : Hist) =>
      let t := pyStrip it.text
      if t = [] then pairs
      else if is_noise t then pairs
      else
        let pfx := if it.role = str "user" then str "User:" else str "Assistant:"
        pairs ++ [pfx ++ [' '] ++ t]) []
  joinSep (str " | ") pairs

/-- The rendered conversation context (empty when no transient history payload
was supplied — the cache is consulted only inside the `if history:` block). -/
def ctxOf (serverHist : List Hist) (history : Option (List Hist)) : Str :=
  match history with
  | none => []
  | some items => buildCtx serverHist items

/-- `q_query = (ctx + " | " if ctx else "") + q` (main.py 352). -/
def qQueryOf (q ctx : Str) : Str :=
  (if ctx ≠ [] then ctx ++ str " | " else []) ++ q

/-- Maximal ASCII-letter runs of a text (`re.findall(r"[A-Za-z]{4,}", s)`
before the length filter). -/
def letterRunsGo (cur : Str) : Str → List Str
  | [] => if cur = [] then [] else [cur.reverse]
  | c :: cs =>
    if c.isAlpha then letterRunsGo (c :: cur) cs
    else if cur = [] then letterRunsGo [] cs
    else cur.reverse :: letterRunsGo [] cs

/-- The keyword set of `candidate_ask` (main.py 355): lower-cased 4+ letter
tokens of the context-augmented query. The Python `set` is modelled as a
first-occurrence-deduplicated list; downstream code only uses membership and
distinct-token counts, which are order-independent. -/
def kwTokens (s : Str) : List Str :=
  dedupKeep (((letterRunsGo [] s).filter (fun r => 4 ≤ r.length)).map pyLower) []

/-- Sentence punctuation class `[\.!\?]` (main.py 361). -/
def isPunct3 (c : Char) : Bool := c = '.' || c = '!' || c = '?'

/-- `re.split(r"[\.!\?]\s+", ch)`: split where a punctuation character is
followed by at least one whitespace; the delimiter swallows the punctuation
and the whitespace run. Fuel is the input length. -/
def splitSentGo : ℕ → Str → Str → List Str
  | 0, cur, cs => [cur.reverse ++ cs]
  | _ + 1, cur, [] => [cur.reverse]
  | fuel + 1, cur, c :: cs =>
    if isPunct3 c then
      match cs with
      | c2 :: _ =>
        if pySpace c2 then cur.reverse :: splitSentGo fuel [] (cs.dropWhile pySpace)
        else splitSentGo fuel (c :: cur) cs
      | [] => splitSentGo fuel (c :: cur) []
    else splitSentGo fuel (c :: cur) cs

def splitSent (ch : Str) : List Str := splitSentGo ch.length [] ch

/-- Per-chunk scored sentences (main.py 357-367): one similarity per chunk,
then each stripped non-noise sentence gets the chunk similarity plus a
keyword-hit boost of `min(0.1, 0.02·hits)`. -/
def chunkScored (sim : Str → Str → ℚ) (q_query : Str) (kw : List Str) (ch : Str) :
    List (ℚ × Str) :=
  let simv := sim q_query ch
  (((splitSent ch).map pyStrip).filter (· ≠ [])).filterMap (fun sent =>
    if is_noise sent then none
    else
      let sl := pyLower sent
      let hits := (kw.filter (fun t => containsSub sl t)).length
      let boost : ℚ := if hits ≠ 0 then min 0.1 (0.02 * (hits : ℚ)) else 0
      some (simv + boost, sent))

/-- The full scored pool: chunks at size 400 in order (main.py 324, 356-367). -/
def scoredOf (sim : Str → Str → ℚ) (q_query : Str) (kw : List Str) (txt : Str) :
    List (ℚ × Str) :=
  (createChunks txt 400).foldl (fun acc ch => acc ++ chunkScored sim q_query kw ch) []

/-- The top-sentence loop (main.py 369-379): walk the scored pool sorted
descending, truncate to 250 characters, deduplicate case-insensitively, stop
at 3. -/
def topSentsLoop : List (ℚ × Str) → List Str → List (ℚ × Str) → List (ℚ × Str)
  | [], _, acc => acc
  | (simv, sent) :: rest, seen, acc =>
    let s := sent.take 250
    if pyLower s ∈ seen then topSentsLoop rest seen acc
    else
      let acc2 := acc ++ [(simv, s)]
      if 3 ≤ acc2.length then acc2 else topSentsLoop rest (pyLower s :: seen) acc2

def topSentsOf (scored : List (ℚ × Str)) : List (ℚ × Str) :=
  topSentsLoop (sortByDesc (fun p => p.1) scored) [] []

/-- `contains_any` (main.py 383-385). -/
def contains_any (text : Str) (words : List Str) : Bool :=
  words.any (fun w => containsSub (pyLower text) w)

/-- Leadership trigger words (main.py 386). -/
def leadQwords : List Str :=
  [str "lead", str "leader", str "managed", str "manage", str "team lead",
   str "leadership", str "supervis", str "responsib", str "owned", str "ownership",
   str "accountable", str "coordinated", str "organized"]

/-- Leadership evidence words (main.py 388, 392). -/
def leadEwords : List Str :=
  [str "led", str "managed", str "team lead", str "leadership", str "supervised",
   str "mentored", str "responsible for", str "owned", str "coordinated", str "organized"]

/-- Experience trigger words (main.py 401). -/
def expWords : List Str := [str "year", str "experience", str "exp"]

/-- GPA trigger words (main.py 418). -/
def gpaWords : List Str := [str "cgpa", str "gpa"]

/-- Education trigger words (main.py 430). -/
def eduQwords : List Str :=
  [str "education", str "college", str "university", str "degree", str "btech",
   str "b.tech", str "b sc", str "bsc", str "mtech", str "m.tech", str "msc",
   str "b.e", str "be"]

/-- Education fallback-scan words (main.py 437). -/
def eduScanWords : List Str :=
  [str "university", str "college", str "institute", str "school", str "b.tech",
   str "btech", str "b.e", str "be", str "m.tech", str "mtech", str "m.sc",
   str "msc", str "b.sc", str "bsc", str "cgpa", str "gpa"]

/-- Institution words (main.py 443). -/
def instWords : List Str := [str "university", str "college", str "institute", str "school"]

/-- Projects trigger words (main.py 451). -/
def projQwords : List Str :=
  [str "project", str "projects", str "web", str "website", str "frontend",
   str "backend", str "full stack", str "fullstack", str "react", str "node",
   str "django", str "flask", str "html", str "css", str "javascript",
   str "typescript", str "api", str "machine learning", str "ml",
   str "deep learning", str "cnn", str "lstm", str "pytorch", str "tensorflow"]

/-- Web-stack words (main.py 453). -/
def web_kw : List Str :=
  [str "web", str "website", str "frontend", str "backend", str "full stack",
   str "fullstack", str "react", str "next", str "node", str "express",
   str "django", str "flask", str "html", str "css", str "javascript",
   str "typescript", str "api"]

/-- ML-stack words (main.py 454). -/
def ml_kw : List Str :=
  [str "machine learning", str "ml", str "deep learning", str "cnn", str "lstm",
   str "pytorch", str "tensorflow", str "model", str "classification",
   str "prediction"]

/-- Action/tech words of the project filter (main.py 475). -/
def actionWords : List Str :=
  [str "built", str "developed", str "implemented", str "designed", str "created",
   str "classification", str "prediction", str "api", str "app", str "web", str "model"]

/-- Tail `\s*\+?\s*years?\b` of the years pattern (IGNORECASE), returning the
captured digit group on success. -/
def yearTail (ds : Str) (cs2 : Str) : Option (Str × Char × Str) :=
  let cs3 := cs2.dropWhile pySpace
  let cs3 := match cs3 with
    | '+' :: r => r.dropWhile pySpace
    | r => r
  match stripCI (str "year") cs3 with
  | none => none
  | some cs4 =>
    match cs4 with
    | c :: rest =>
      if c.toLower = 's' then
        match rest with
        | [] => some (ds, 's', [])
        | r :: _ => if isWordCh r then none else some (ds, 's', rest)
      else if isWordCh c then none
      else some (ds, 'r', cs4)
    | [] => some (ds, 'r', [])

/-- Matcher for `\b(\d{1,2})\s*\+?\s*years?\b` (IGNORECASE): greedy two digits
first, then one. -/
def yearAt (prev : Option Char) (cs : Str) : Option (Str × Char × Str) :=
  match cs with
  | c :: cs1 =>
    if isDigitCh c && !wordOpt prev then
      let try2 := match cs1 with
        | c2 :: cs2 => if isDigitCh c2 then yearTail [c, c2] cs2 else none
        | [] => none
      match try2 with
      | some res => some res
      | none => yearTail [c] cs1
    else none
  | [] => none

/-- Decimal digit-string to number (Python `int(y)`). -/
def digitsToNat (ds : Str) : ℕ := ds.foldl (fun n c => 10 * n + (c.toNat - 48)) 0

/-- Python `max` over the year mentions (the branch guarantees non-emptiness;
`foldl max 0` agrees on naturals). -/
def maxNat (l : List ℕ) : ℕ := l.foldl max 0

/-- Tail `\s*[:\-]?\s*(\d+(?:\.\d+)?)` of the GPA pattern, returning the
captured number. -/
def gpaTail (cs : Str) : Option (Str × Char × Str) :=
  let cs1 := cs.dropWhile pySpace
  let cs1 := match cs1 with
    | ':' :: r => r
    | '-' :: r => r
    | r => r
  let cs2 := cs1.dropWhile pySpace
  let ds := cs2.takeWhile isDigitCh
  if ds = [] then none
  else
    let rest := cs2.dropWhile isDigitCh
    match rest with
    | '.' :: r2 =>
      let fs := r2.takeWhile isDigitCh
      if fs = [] then some (ds, lastD ds, rest)
      else some (ds ++ '.' :: fs, lastD fs, r2.dropWhile isDigitCh)
    | _ => some (ds, lastD ds, rest)

/-- Matcher for `\b(CGPA|GPA)\s*[:\-]?\s*(\d+(?:\.\d+)?)` (IGNORECASE),
returning the captured number group (the code uses only `cg[0][1]`). -/
def gpaAt (prev : Option Char) (cs : Str) : Option (Str × Char × Str) :=
  if wordOpt prev then none
  else
    match stripCI (str "cgpa") cs with
    | some cs2 => gpaTail cs2
    | none =>
      match stripCI (str "gpa") cs with
      | some cs2 => gpaTail cs2
      | none => none

/-- `re.findall` of the GPA pattern over the cleaned text (main.py 420). -/
def gpaFindall (txt : Str) : List Str := findRe gpaAt txt

/-- Matcher for `\b(CGPA|GPA)\b` (IGNORECASE). -/
def gpaWordAt (prev : Option Char) (cs : Str) : Option (Char × Str) :=
  if wordOpt prev then none
  else
    let fin := fun (rest : Str) =>
      match rest with
      | [] => some ('a', ([] : Str))
      | r :: rest2 => if isWordCh r then none else some ('a', r :: rest2)
    match stripCI (str "cgpa") cs with
    | some rest => fin rest
    | none =>
      match stripCI (str "gpa") cs with
      | some rest => fin rest
      | none => none

/-- `re.search(r"\b(CGPA|GPA)\b", l, IGNORECASE)` as a Boolean (main.py 425). -/
def hasGpaWord (l : Str) : Bool := searchRe gpaWordAt l

/-- Leadership fallback scan over `scored[:50]` (main.py 391-395): collect
matching sentences truncated to 250, stop at 2. -/
def leadFallback : List (ℚ × Str) → List Str → List Str
  | [], acc => acc
  | (_, s) :: rest, acc =>
    if contains_any s leadEwords then
      let acc2 := acc ++ [s.take 250]
      if 2 ≤ acc2.length then acc2 else leadFallback rest acc2
    else leadFallback rest acc

/-- Experience-sentence scan over the scored pool (main.py 410-415): collect
sentences with a year-count pattern truncated to 250, stop at 3. -/
def expLoop : List (ℚ × Str) → List Str → List Str
  | [], acc => acc
  | (_, s) :: rest, acc =>
    if findRe yearAt s ≠ [] then
      let acc2 := acc ++ [s.take 250]
      if 3 ≤ acc2.length then acc2 else expLoop rest acc2
    else expLoop rest acc

/-- Education fallback scan over the noise-filtered lines (main.py 435-440):
collect lines with an education keyword truncated to 200, stop at 3. -/
def eduScanLoop : List Str → List Str → List Str
  | [], acc => acc
  | line :: rest, acc =>
    if eduScanWords.any (fun k => containsSub (pyLower line) k) then
      let acc2 := acc ++ [line.take 200]
      if 3 ≤ acc2.length then acc2 else eduScanLoop rest acc2
    else eduScanLoop rest acc

/-- Projects fallback scan over the lines (main.py 459-465): collect lines
mentioning "project" or a web/ML word truncated to 200, stop at 8. -/
def projScanLoop : List Str → List Str → List Str
  | [], acc => acc
  | line :: rest, acc =>
    if containsSub (pyLower line) (str "project") ||
        (web_kw ++ ml_kw).any (fun k => containsSub (pyLower line) k) then
      let acc2 := acc ++ [line.take 200]
      if 8 ≤ acc2.length then acc2 else projScanLoop rest acc2
    else projScanLoop rest acc

/-- Project domain filter (main.py 467-479): apply web/ML orientation filters
and require "project" or an action/tech word, stop at 3. -/
def projFilterLoop (want_web want_ml : Bool) : List Str → List Str → List Str
  | [], acc => acc
  | pl :: rest, acc =>
    let pll := pyLower pl
    if want_web && !(web_kw.any (fun k => containsSub pll k)) then
      projFilterLoop want_web want_ml rest acc
    else if want_ml && !(ml_kw.any (fun k => containsSub pll k)) then
      projFilterLoop want_web want_ml rest acc
    else if !(containsSub pll (str "project")) &&
        !(actionWords.any (fun k => containsSub pll k)) then
      projFilterLoop want_web want_ml rest acc
    else
      let acc2 := acc ++ [pl]
      if 3 ≤ acc2.length then acc2 else projFilterLoop want_web want_ml rest acc2

/-- The `candidate_ask` result (`answer`, `snippets`, `scores`). -/
structure AnswerResult where
  answer : Str
  snippets : List Str
  scores : List ℚ
deriving DecidableEq

/-- The pure core of `candidate_ask` (main.py 248-504): cleanup, line and
heading extraction, context fusion, chunk/sentence scoring, and the
first-match-wins intent dispatch, producing the response dict. -/
def candidateAskCore (sim : Str → Str → ℚ) (question resume_text : Str)
    (serverHist : List Hist) (history : Option (List Hist)) : AnswerResult :=
  let q := pyStrip question
  let txt := cleanTxt resume_text
  let lines := linesOf txt
  let headings := headingsOf lines
  let ctx := ctxOf serverHist history
  let q_query := qQueryOf q ctx
  let kw := kwTokens q_query
  let scored := scoredOf sim q_query kw txt
  let top_sents := topSentsOf scored
  let ql := pyLower q
  let res : Str × List (ℚ × Str) :=
    if contains_any ql leadQwords then
      let evidence := (top_sents.filter (fun p => contains_any p.2 leadEwords)).map
        (fun p => p.2)
      let evidence := if evidence = [] then leadFallback (scored.take 50) [] else evidence
      let answer := if evidence ≠ [] then str "Yes — shows leadership experience."
        else str "Not explicitly mentioned — no clear leadership evidence found."
      (answer, (evidence.take 3).map (fun e => ((1 : ℚ), e)))
    else if contains_any ql expWords then
      let years := findRe yearAt txt
      let answer := if years ≠ [] then
          str "Approximately " ++ natStr (maxNat (years.map digitsToNat)) ++
            str " years of experience mentioned."
        else str "Years of experience are not clearly quantified."
      let exp_sents := expLoop scored []
      (answer, if exp_sents ≠ [] then exp_sents.map (fun s => ((1 : ℚ), s)) else top_sents)
    else if contains_any ql gpaWords then
      match gpaFindall txt with
      | v :: _ =>
        let answer := str "CGPA/GPA: " ++ v
        (answer, match lines.find? hasGpaWord with
          | some l => [((1 : ℚ), l.take 200)]
          | none => [])
      | [] => (str "CGPA/GPA not explicitly mentioned.", [])
    else if contains_any ql eduQwords then
      let edu_lines := section_slice lines headings (str "education") 12
      let edu_lines := if edu_lines = [] then eduScanLoop lines [] else edu_lines
      if edu_lines ≠ [] then
        let inst := edu_lines.filter (fun e => instWords.any
          (fun x => containsSub (pyLower e) x))
        let answer := match inst with
          | i :: _ => str "Education: " ++ i
          | [] => str "Education: " ++ edu_lines.headD []
        (answer, (edu_lines.take 3).map (fun e => ((1 : ℚ), e)))
      else (str "Education details not clearly found.", top_sents)
    else if contains_any ql projQwords then
      let want_web := contains_any ql web_kw
      let want_ml := contains_any ql ml_kw
      let proj_lines := section_slice lines headings (str "project") 18
      let proj_lines := if proj_lines = [] then projScanLoop lines [] else proj_lines
      let filtered := projFilterLoop want_web want_ml proj_lines []
      if proj_lines ≠ [] then
        let use := if filtered ≠ [] then filtered else proj_lines.take 3
        let answer :=
          if want_web then str "Web projects: " ++ use.headD []
          else if want_ml then str "ML projects: " ++ use.headD []
          else str "Projects: " ++ use.headD []
        (answer, use.map (fun p => ((1 : ℚ), p)))
      else (str "No explicit projects matching that topic were found.", top_sents)
    else
      let filtered := top_sents.filter (fun p => kw.any
        (fun k => containsSub (pyLower p.2) k))
      if filtered ≠ [] then
        (str "From the resume: " ++ joinSep (str "; ") ((filtered.take 2).map (fun p => p.2)),
          top_sents)
      else (str "I couldn't find specific information related to your question.", [])
  ⟨pyStrip res.1, res.2.map (fun p => pyStrip p.2), res.2.map (fun p => p.1)⟩

/-- The `candidate_ask` endpoint (main.py 248-511): read the conversation
cache (with its lazy eviction), run the core, and best-effort append the user
question and the answer to the cache. -/
def candidate_ask (sim : Str → Str → ℚ) (question resume_text : Str)
    (candidate_id : Option Str) (history : Option (List Hist))
    (store : ChatStore) (now : ℚ) : AnswerResult × ChatStore :=
  let serverHist := match candidate_id with
    | some cid => (store.get cid now).1.map (fun p => (⟨p.1, p.2⟩ : Hist))
    | none => []
  let store2 := match candidate_id with
    | some cid => (store.get cid now).2
    | none => store
  let res := candidateAskCore sim question resume_text serverHist history
  let store3 := match candidate_id with
    | some cid =>
      (store2.add cid (str "user") (pyStrip question) now).add cid
        (str "assistant") res.answer now
    | none => store2
  (res, store3)

/-! ### C6: keyword derivation -/

/-- A transient-history fixture whose text survives the noise filter. -/
def hist0 : Hist := ⟨str "user", str "wxyz is quite an important keyword here"⟩

/-- A GPA-free document fixture. -/
def txtNoGpa : Str :=
  str "This document describes a candidate and contains no grade point average data."

/-! ### C2: determinism -/

/-- Strip the per-request environment artifacts (candidate ids, analysis time)
from a response. -/
def eraseEnv (resp : SortResponse) : List ScoreData × Str :=
  (resp.candidates.map candCore, resp.jobDescription)

/-! ## Lemmas and claim theorems -/

lemma foldRG (n : ℕ) : ∀ (l : List Str) (chG : List (List Str)) (cur : List Str) (len : ℕ),
    l.foldl (chunkStepR n) (chG.map renderChunk, cur, len) =
      ((l.foldl (chunkStepG n) (chG, cur, len)).1.map renderChunk,
       (l.foldl (chunkStepG n) (chG, cur, len)).2) := by
  intro l
  induction l with
  | nil => intro chG cur len; simp
  | cons s rest ih =>
    intro chG cur len
    simp only [List.foldl_cons, chunkStepR, chunkStepG]
    by_cases h : len + s.length > n ∧ cur ≠ []
    · simp only [if_pos h]
      have hmap : chG.map renderChunk ++ [renderChunk cur] = (chG ++ [cur]).map renderChunk := by
        simp
      rw [hmap]
      exact ih (chG ++ [cur]) [s] s.length
    · simp only [if_neg h]
      exact ih chG (cur ++ [s]) (len + s.length)

lemma cur_ne_nil_preserved (n : ℕ) : ∀ (l : List Str) (st : List (List Str) × List Str × ℕ),
    st.2.1 ≠ [] → (l.foldl (chunkStepG n) st).2.1 ≠ [] := by
  intro l
  induction l with
  | nil => intro st h; exact h
  | cons s rest ih =>
    intro st h
    simp only [List.foldl_cons, chunkStepG]
    by_cases hc : st.2.2 + s.length > n ∧ st.2.1 ≠ []
    · simp only [if_pos hc]; exact ih _ (by simp)
    · simp only [if_neg hc]; exact ih _ (by simp)

lemma cur_ne_nil_after (n : ℕ) (l : List Str) (st : List (List Str) × List Str × ℕ)
    (h : l ≠ []) : (l.foldl (chunkStepG n) st).2.1 ≠ [] := by
  match l with
  | [] => exact absurd rfl h
  | s :: rest =>
    simp only [List.foldl_cons, chunkStepG]
    by_cases hc : st.2.2 + s.length > n ∧ st.2.1 ≠ []
    · simp only [if_pos hc]; exact cur_ne_nil_preserved n rest _ (by simp)
    · simp only [if_neg hc]; exact cur_ne_nil_preserved n rest _ (by simp)

lemma flatten_fold (n : ℕ) : ∀ (l : List Str) (st : List (List Str) × List Str × ℕ),
    (l.foldl (chunkStepG n) st).1.flatten ++ (l.foldl (chunkStepG n) st).2.1 =
      st.1.flatten ++ st.2.1 ++ l := by
  intro l
  induction l with
  | nil => intro st; simp
  | cons s rest ih =>
    intro st
    simp only [List.foldl_cons, chunkStepG]
    by_cases hc : st.2.2 + s.length > n ∧ st.2.1 ≠ []
    · simp only [if_pos hc]
      rw [ih]
      simp [List.append_assoc]
    · simp only [if_neg hc]
      rw [ih]
      simp [List.append_assoc]

lemma fold_good (n : ℕ) : ∀ (l : List Str) (st : List (List Str) × List Str × ℕ),
    (∀ g ∈ st.1, g ≠ [] ∧ (2 ≤ g.length → sumLen g ≤ n)) →
    (2 ≤ st.2.1.length → sumLen st.2.1 ≤ n) →
    st.2.2 = sumLen st.2.1 →
    (∀ g ∈ (l.foldl (chunkStepG n) st).1, g ≠ [] ∧ (2 ≤ g.length → sumLen g ≤ n)) ∧
    (2 ≤ (l.foldl (chunkStepG n) st).2.1.length → sumLen (l.foldl (chunkStepG n) st).2.1 ≤ n) ∧
    (l.foldl (chunkStepG n) st).2.2 = sumLen (l.foldl (chunkStepG n) st).2.1 := by
  intro l
  induction l with
  | nil => intro st h1 h2 h3; exact ⟨h1, h2, h3⟩
  | cons s rest ih =>
    intro st h1 h2 h3
    simp only [List.foldl_cons, chunkStepG]
    by_cases hc : st.2.2 + s.length > n ∧ st.2.1 ≠ []
    · simp only [if_pos hc]
      refine ih _ ?_ ?_ ?_
      · intro g hg
        rcases List.mem_append.mp hg with hg | hg
        · exact h1 g hg
        · rcases List.mem_singleton.mp hg with rfl
          exact ⟨hc.2, h2⟩
      · intro h; simp at h
      · simp [sumLen]
    · simp only [if_neg hc]
      refine ih _ h1 ?_ ?_
      · dsimp only
        intro hlen
        have hcur : st.2.1 ≠ [] := by
          intro hnil
          rw [hnil] at hlen
          simp at hlen
        have hle : ¬ st.2.2 + s.length > n := fun hgt => hc ⟨hgt, hcur⟩
        have hs : sumLen (st.2.1 ++ [s]) = st.2.2 + s.length := by
          simp [sumLen, h3]
        rw [hs]
        exact Nat.le_of_not_lt hle
      · dsimp only
        simp [sumLen, h3]

lemma chunkGroups_good (text : Str) (n : ℕ) :
    ∀ g ∈ chunkGroups text n, g ≠ [] ∧ (2 ≤ g.length → sumLen g ≤ n) := by
  intro g hg
  unfold chunkGroups at hg
  have h := fold_good n (sentencesOf text) ([], [], 0) (by simp) (by simp [sumLen]) (by simp [sumLen])
  set st := (sentencesOf text).foldl (chunkStepG n) ([], [], 0) with hst
  by_cases hcur : st.2.1 = []
  · simp only [if_pos hcur] at hg
    exact h.1 g hg
  · simp only [if_neg hcur] at hg
    rcases List.mem_append.mp hg with hg | hg
    · exact h.1 g hg
    · rcases List.mem_singleton.mp hg with rfl
      exact ⟨hcur, h.2.1⟩

lemma chunkGroups_flatten (text : Str) (n : ℕ) :
    (chunkGroups text n).flatten = sentencesOf text := by
  unfold chunkGroups
  have h := flatten_fold n (sentencesOf text) ([], [], 0)
  set st := (sentencesOf text).foldl (chunkStepG n) ([], [], 0) with hst
  by_cases hcur : st.2.1 = []
  · simp only [if_pos hcur]
    rw [hcur] at h
    simpa using h
  · simp only [if_neg hcur]
    simpa using h

lemma createChunks_eq_render (text : Str) (n : ℕ) (h : sentencesOf text ≠ []) :
    createChunks text n = (chunkGroups text n).map renderChunk := by
  unfold createChunks chunkGroups
  have hfold := foldRG n (sentencesOf text) [] [] 0
  simp only [List.map_nil] at hfold
  rw [hfold]
  have hcur := cur_ne_nil_after n (sentencesOf text) ([], [], 0) h
  set st := (sentencesOf text).foldl (chunkStepG n) ([], [], 0) with hst
  simp only [if_neg hcur]
  have : st.1.map renderChunk ++ [renderChunk st.2.1] = (st.1 ++ [st.2.1]).map renderChunk := by
    simp
  rw [this]
  rw [if_neg (by simp)]

lemma createChunks_of_no_sentences (text : Str) (n : ℕ) (h : sentencesOf text = []) :
    createChunks text n = [text] := by
  unfold createChunks
  rw [h]
  simp

lemma renderChunk_ne_nil (g : List Str) : renderChunk g ≠ [] := by
  unfold renderChunk
  simp [str]

/-- C4 counterexample: on the empty text the fallback chunk is the original
(empty) text, so the returned single chunk is empty, refuting the claim that
every chunk is non-empty. -/
theorem c4_chunker_counterexample :
    createChunks ([] : Str) 500 = [([] : Str)] ∧
    ¬ (∀ c ∈ createChunks ([] : Str) 500, c ≠ ([] : Str)) :=
  ⟨by decide, fun h => h [] (by decide) rfl⟩

/-- C4 (amended): for every non-empty input text and every size, all chunks are
non-empty; the sentence groups underlying the chunks concatenate, in order, to
exactly the non-empty stripped sentences of the input (so no content is dropped
and every sentence lands in exactly one chunk); if the text yields no sentences
the result is the single chunk `[text]`; otherwise the chunks are precisely the
groups rendered with `. ` joiners and a trailing period. -/
theorem c4_chunker_amended (text : Str) (n : ℕ) (h : text ≠ []) :
    (∀ c ∈ createChunks text n, c ≠ []) ∧
    (chunkGroups text n).flatten = sentencesOf text ∧
    (sentencesOf text = [] → createChunks text n = [text]) ∧
    (sentencesOf text ≠ [] → createChunks text n = (chunkGroups text n).map renderChunk) := by
  refine ⟨?_, chunkGroups_flatten text n, createChunks_of_no_sentences text n,
    createChunks_eq_render text n⟩
  intro c hc
  by_cases hs : sentencesOf text = []
  · rw [createChunks_of_no_sentences text n hs] at hc
    rcases List.mem_singleton.mp hc with rfl
    exact h
  · rw [createChunks_eq_render text n hs] at hc
    rcases List.mem_map.mp hc with ⟨g, _, rfl⟩
    exact renderChunk_ne_nil g

/-- Witness for C4 (amended) at a concrete input. -/
theorem c4_chunker_amended_witness :
    (∀ c ∈ createChunks (str "ab. cd.") 500, c ≠ []) ∧
    (chunkGroups (str "ab. cd.") 500).flatten = sentencesOf (str "ab. cd.") ∧
    (sentencesOf (str "ab. cd.") = [] → createChunks (str "ab. cd.") 500 = [str "ab. cd."]) ∧
    (sentencesOf (str "ab. cd.") ≠ [] →
      createChunks (str "ab. cd.") 500 = (chunkGroups (str "ab. cd.") 500).map renderChunk) :=
  c4_chunker_amended (str "ab. cd.") 500 (by decide)

/-- C10: a chunk group holding two or more sentences has total stripped
sentence length at most the chunk size (joiners and the trailing period are not
counted), and a group whose total exceeds the size consists of a single
sentence. -/
theorem c10_chunk_size_bound (text : Str) (n : ℕ) (g : List Str)
    (hg : g ∈ chunkGroups text n) :
    (2 ≤ g.length → sumLen g ≤ n) ∧ (n < sumLen g → g.length = 1) := by
  have h := chunkGroups_good text n g hg
  refine ⟨h.2, fun hn => ?_⟩
  have h2 : ¬ 2 ≤ g.length := fun h2 => absurd (h.2 h2) (by omega)
  have h1 : g.length ≠ 0 := fun h0 => h.1 (List.eq_nil_of_length_eq_zero h0)
  omega

/-- Witness for C10 at a concrete input. -/
theorem c10_chunk_size_bound_witness :
    (2 ≤ ([str "ab", str "cd"] : List Str).length → sumLen [str "ab", str "cd"] ≤ 500) ∧
    (500 < sumLen [str "ab", str "cd"] → ([str "ab", str "cd"] : List Str).length = 1) :=
  c10_chunk_size_bound (str "ab. cd.") 500 [str "ab", str "cd"] (by decide)

lemma sortByDesc_sorted [LinearOrder β] (key : α → β) (l : List α) :
    (sortByDesc key l).Pairwise (fun a b => key b ≤ key a) := by
  have ht : IsTotal α (fun a b => key b ≤ key a) := ⟨fun a b => le_total (key b) (key a)⟩
  have htr : IsTrans α (fun a b => key b ≤ key a) := ⟨fun _ _ _ hab hbc => le_trans hbc hab⟩
  exact List.sorted_insertionSort _ l

lemma sortByDesc_perm [LinearOrder β] (key : α → β) (l : List α) :
    (sortByDesc key l).Perm l :=
  List.perm_insertionSort _ l

lemma filter_orderedInsert [LinearOrder β] (key : α → β) (v : β) (a : α) (l : List α) :
    (List.orderedInsert (fun x y => key y ≤ key x) a l).filter (fun x => key x = v) =
      if key a = v then a :: l.filter (fun x => key x = v)
      else l.filter (fun x => key x = v) := by
  induction l with
  | nil =>
    by_cases h : key a = v <;> simp [List.orderedInsert, List.filter, h]
  | cons b l ih =>
    simp only [List.orderedInsert]
    by_cases hr : key b ≤ key a
    · simp only [if_pos hr]
      by_cases ha : key a = v <;> by_cases hb : key b = v <;>
        simp [List.filter_cons, ha, hb]
    · have hab : key a < key b := lt_of_not_le hr
      simp only [if_neg hr, List.filter_cons]
      by_cases hb : key b = v
      · have ha : ¬ key a = v := by
          intro h; rw [h] at hab; rw [hb] at hab; exact lt_irrefl v hab
        simp [hb, ih, ha]
      · by_cases ha : key a = v <;> simp [hb, ih, ha]

/-- Stability of the descending sort: for every key value, the elements holding
that key appear in the output in their original relative order. -/
lemma filter_sortByDesc [LinearOrder β] (key : α → β) (v : β) (l : List α) :
    (sortByDesc key l).filter (fun x => key x = v) = l.filter (fun x => key x = v) := by
  induction l with
  | nil => rfl
  | cons x xs ih =>
    show (List.orderedInsert _ x (sortByDesc key xs)).filter _ = _
    rw [filter_orderedInsert]
    by_cases hx : key x = v <;> simp [List.filter_cons, hx, ih]

/-- A list already sorted descending is unchanged by the descending sort. -/
lemma sortByDesc_of_sorted [LinearOrder β] (key : α → β) (l : List α)
    (h : l.Pairwise (fun a b => key b ≤ key a)) : sortByDesc key l = l :=
  List.Sorted.insertionSort_eq h

/-! ### C1: match percentage -/

lemma floor_hundred : (⌊(100 : ℚ)⌋ : ℤ) = 100 := by
  norm_num

/-- The `int(min(100, max(0, c*100)))` computation equals clamping the floor of
`c*100` into `[0,100]`, and always lands in `[0,100]`. -/
lemma matchPercentageOf_eq (c : ℚ) :
    matchPercentageOf c = min 100 (max 0 ⌊c * 100⌋) ∧
    0 ≤ matchPercentageOf c ∧ matchPercentageOf c ≤ 100 := by
  unfold matchPercentageOf
  rcases le_total (c * 100) 0 with h | h
  · have hmax : max (0 : ℚ) (c * 100) = 0 := max_eq_left h
    have hfl : ⌊c * 100⌋ ≤ 0 := by
      have := Int.floor_le_floor h
      simpa using this
    rw [hmax]
    have hmin : min (100 : ℚ) 0 = 0 := by norm_num
    rw [hmin]
    have hmax2 : max (0 : ℤ) ⌊c * 100⌋ = 0 := max_eq_left hfl
    rw [hmax2]
    norm_num
  · have hmax : max (0 : ℚ) (c * 100) = c * 100 := max_eq_right h
    have hfl0 : (0 : ℤ) ≤ ⌊c * 100⌋ := by
      have := Int.floor_le_floor h
      simpa using this
    have hmax2 : max (0 : ℤ) ⌊c * 100⌋ = ⌊c * 100⌋ := max_eq_right hfl0
    rw [hmax, hmax2]
    rcases le_total (c * 100) 100 with h2 | h2
    · have hmin : min (100 : ℚ) (c * 100) = c * 100 := min_eq_right h2
      have hfl100 : ⌊c * 100⌋ ≤ 100 := by
        have := Int.floor_le_floor h2
        rw [floor_hundred] at this
        exact this
      rw [hmin, min_eq_right hfl100]
      exact ⟨rfl, hfl0, hfl100⟩
    · have hmin : min (100 : ℚ) (c * 100) = 100 := min_eq_left h2
      have hfl100 : (100 : ℤ) ≤ ⌊c * 100⌋ := by
        have := Int.floor_le_floor h2
        rw [floor_hundred] at this
        exact this
      rw [hmin, floor_hundred, min_eq_left hfl100]
      norm_num

lemma mem_score_resumes {sim : Str → Str → ℚ} {jd : Str} {docs : List ProcessedResume}
    {r : ScoreData} (hr : r ∈ score_resumes sim jd docs) :
    ∃ doc ∈ docs, r = scoreOne sim jd doc := by
  have hr2 : r ∈ sortByDesc (fun x => x.match_percentage) (docs.map (scoreOne sim jd)) := hr
  have hmem : r ∈ docs.map (scoreOne sim jd) :=
    ((sortByDesc_perm (fun x => x.match_percentage) _).mem_iff).mp hr2
  rcases List.mem_map.mp hmem with ⟨doc, hdoc, heq⟩
  exact ⟨doc, hdoc, heq.symm⟩

/-- C1 (amended): every scored document's match percentage is the combined
score scaled to 100, truncated toward zero (floored) — not rounded — and then
clamped into `[0,100]`; in particular it always lies in `[0,100]`. -/
theorem c1_match_percentage_amended (sim : Str → Str → ℚ) (jd : Str)
    (docs : List ProcessedResume) (r : ScoreData) (hr : r ∈ score_resumes sim jd docs) :
    r.match_percentage =
      min 100 (max 0 ⌊(0.85 * r.semantic_score + 0.15 * r.skill_match_ratio) * 100⌋) ∧
    0 ≤ r.match_percentage ∧ r.match_percentage ≤ 100 := by
  rcases mem_score_resumes hr with ⟨doc, -, rfl⟩
  exact matchPercentageOf_eq _

/-- C1 counterexample: with semantic score `0.006` and skill ratio `0`, the
combined score scales to `0.51`; the code truncates this to `0` while the
claimed rounding would give `1`. -/
theorem c1_counterexample :
    (score_resumes simSmall (str "zzzz") [docHi]).map (fun r => r.match_percentage) = [0] ∧
    (score_resumes simSmall (str "zzzz") [docHi]).map
      (fun r => claimMatchPercentage r.semantic_score r.skill_match_ratio) = [1] := by
  constructor <;> decide

/-- Witness for C1 (amended) at a concrete input. -/
theorem c1_match_percentage_amended_witness :
    ∃ r ∈ score_resumes simSmall (str "zzzz") [docHi],
      (r.match_percentage =
        min 100 (max 0 ⌊(0.85 * r.semantic_score + 0.15 * r.skill_match_ratio) * 100⌋) ∧
      0 ≤ r.match_percentage ∧ r.match_percentage ≤ 100) :=
  ⟨scoreOne simSmall (str "zzzz") docHi, by decide,
    c1_match_percentage_amended simSmall (str "zzzz") [docHi] _ (by decide)⟩

lemma evidenceLoop_eq (chunks jobKw : List Str) :
    ∀ (idxs : List ℕ) (acc : List Str), acc.length < 3 →
    evidenceLoop chunks jobKw idxs acc =
      acc ++ (idxs.filterMap (evidenceStep chunks jobKw)).take (3 - acc.length) := by
  intro idxs
  induction idxs with
  | nil => intro acc h; simp [evidenceLoop]
  | cons i rest ih =>
    intro acc h
    simp only [evidenceLoop, List.filterMap_cons, evidenceStep]
    by_cases hn : evidenceNoise (pyLower (snippetOf chunks i))
    · simp only [if_pos hn]
      exact ih acc h
    · simp only [if_neg hn]
      by_cases h3 : 3 ≤ (acc ++ [annotateMatched jobKw (snippetOf chunks i)]).length
      · simp only [if_pos h3]
        have hlen : acc.length = 2 := by
          simp only [List.length_append, List.length_singleton] at h3
          omega
        have hk : 3 - acc.length = 0 + 1 := by omega
        rw [hk, List.take_succ_cons, List.take_zero]
      · simp only [if_neg h3]
        have hlen : (acc ++ [annotateMatched jobKw (snippetOf chunks i)]).length < 3 := by
          omega
        rw [ih _ hlen]
        have hk : 3 - acc.length = (2 - acc.length) + 1 := by omega
        rw [hk, List.take_succ_cons]
        have hk2 : 3 - (acc ++ [annotateMatched jobKw (snippetOf chunks i)]).length =
            2 - acc.length := by
          simp only [List.length_append, List.length_singleton]
          omega
        rw [hk2, List.append_assoc]
        rfl

lemma filterMap_evidenceStep (chunks jobKw : List Str) (idxs : List ℕ) :
    idxs.filterMap (evidenceStep chunks jobKw) =
      (((idxs.map (snippetOf chunks)).filter
        (fun raw => !evidenceNoise (pyLower raw))).map (annotateMatched jobKw)) := by
  induction idxs with
  | nil => rfl
  | cons i rest ih =>
    simp only [List.filterMap_cons, List.map_cons, List.filter_cons, evidenceStep]
    by_cases hn : evidenceNoise (pyLower (snippetOf chunks i)) <;>
      simp [hn, ih]

lemma topIdx_eq (scores : List ℚ) :
    topIdx scores = (argsortAsc scores).reverse.take 5 := by
  unfold topIdx lastN
  rw [List.take_reverse]

lemma mkEvidence_eq (chunks : List Str) (scores : List ℚ) (jobKw : List Str) :
    mkEvidence chunks scores jobKw = evidenceSpecAmended chunks scores jobKw := by
  unfold mkEvidence evidenceSpecAmended
  by_cases h : scores = []
  · subst h
    simp [argsortAsc, sortByAsc, withIdx, withIdxFrom, List.insertionSort]
  · simp only [if_pos h]
    rw [evidenceLoop_eq chunks jobKw _ [] (by norm_num), filterMap_evidenceStep, topIdx_eq]
    simp

/-- C5 (amended): for every scored document the evidence equals the top-5
descending-by-similarity snippets — with ties broken by REVERSE original chunk
order, since the code reverses an ascending argsort — truncated to 240
characters, noise-filtered, keyword-annotated, capped at 3 entries. -/
theorem c5_evidence_amended (sim : Str → Str → ℚ) (jd : Str) (doc : ProcessedResume) :
    (scoreOne sim jd doc).evidence =
      evidenceSpecAmended (createChunks doc.raw_text 500)
        ((createChunks doc.raw_text 500).map (sim jd)) (extract_keywords jd) :=
  mkEvidence_eq _ _ _

/-- C5 counterexample: with two equal-similarity chunks the code emits the
evidence in REVERSE original chunk order, while the claim's stable tie-breaking
would keep the original order. -/
theorem c5_counterexample :
    (scoreOne simZero (str "zzzz") docAB).evidence =
      [List.replicate 240 'b', List.replicate 240 'a'] ∧
    evidenceClaimStable (createChunks docAB.raw_text 500)
      ((createChunks docAB.raw_text 500).map (simZero (str "zzzz")))
      (extract_keywords (str "zzzz")) =
      [List.replicate 240 'a', List.replicate 240 'b'] := by
  constructor <;> decide

/-! ### Endpoint lemmas -/

lemma withIdxFrom_map_snd (l : List α) : ∀ i, (withIdxFrom i l).map Prod.snd = l := by
  induction l with
  | nil => intro i; rfl
  | cons x xs ih => intro i; simp [withIdxFrom, ih]

lemma withIdxFrom_filter_snd (Q : α → Bool) (l : List α) :
    ∀ i, ((withIdxFrom i l).filter (fun p => Q p.2)).map Prod.snd = l.filter Q := by
  induction l with
  | nil => intro i; rfl
  | cons x xs ih =>
    intro i
    simp only [withIdxFrom, List.filter_cons]
    by_cases hq : Q x <;> simp [hq, ih]

lemma withIdxFrom_length (l : List α) : ∀ i, (withIdxFrom i l).length = l.length := by
  induction l with
  | nil => intro i; rfl
  | cons x xs ih => intro i; simp [withIdxFrom, ih]

lemma pairwise_withIdx {P : α → α → Prop} {l : List α} (h : l.Pairwise P) :
    (withIdx l).Pairwise (fun a b => P a.2 b.2) := by
  have h2 : ((withIdx l).map Prod.snd).Pairwise P := by
    rw [withIdx, withIdxFrom_map_snd]; exact h
  exact (List.pairwise_map).mp h2

/-- The candidate list built from the ranked scores is already sorted, so the
second stable sort in `sort_resumes` leaves it unchanged. -/
lemma second_sort_id (env : ReqEnv) (scores : List ScoreData)
    (h : scores.Pairwise (fun a b => b.match_percentage ≤ a.match_percentage)) :
    sortByDesc (fun c => c.core.match_percentage)
        ((withIdx scores).map (fun p => Candidate.mk (env.uuids p.1) p.2)) =
      (withIdx scores).map (fun p => Candidate.mk (env.uuids p.1) p.2) := by
  apply sortByDesc_of_sorted
  apply (List.pairwise_map).mpr
  exact pairwise_withIdx h

/-- C3: on every successful request the returned ranking is sorted by match
percentage descending, and within each match-percentage value the candidates
(with the request-generated ids erased) appear exactly in the order the
surviving documents were encountered in the input — the sort is stable. -/
theorem c3_ranking_sorted_stable (env : ReqEnv) (proc : ProcessOracle) (sim : Str → Str → ℚ)
    (jd : Str) (files : List FileUpload) (resp : SortResponse)
    (h : sort_resumes env proc sim jd files = .ok resp) :
    resp.candidates.Pairwise
      (fun a b => b.core.match_percentage ≤ a.core.match_percentage) ∧
    ∀ v : ℤ, (resp.candidates.filter (fun c => c.core.match_percentage = v)).map candCore =
      ((files.filterMap (processOne proc)).map (scoreOne sim jd)).filter
        (fun r => r.match_percentage = v) := by
  unfold sort_resumes at h
  by_cases h1 : pyStrip jd = []
  · rw [if_pos h1] at h; simp at h
  rw [if_neg h1] at h
  by_cases h2 : files = []
  · rw [if_pos h2] at h; simp at h
  rw [if_neg h2] at h
  by_cases h3 : files.filterMap (processOne proc) = []
  · rw [if_pos h3] at h; simp at h
  rw [if_neg h3] at h
  simp only [Except.ok.injEq] at h
  subst h
  have hsorted : (score_resumes sim jd (files.filterMap (processOne proc))).Pairwise
      (fun a b => b.match_percentage ≤ a.match_percentage) :=
    sortByDesc_sorted _ _
  rw [second_sort_id env _ hsorted]
  constructor
  · exact (List.pairwise_map).mpr (pairwise_withIdx hsorted)
  · intro v
    rw [List.filter_map, List.map_map]
    have hcomp :
        (candCore ∘ fun p : ℕ × ScoreData => Candidate.mk (env.uuids p.1) p.2) = Prod.snd :=
      rfl
    have hpred :
        ((fun c : Candidate => decide (c.core.match_percentage = v)) ∘
          fun p : ℕ × ScoreData => Candidate.mk (env.uuids p.1) p.2) =
        (fun p : ℕ × ScoreData => decide (p.2.match_percentage = v)) := rfl
    rw [hcomp, hpred, withIdx]
    exact (withIdxFrom_filter_snd (fun r : ScoreData => decide (r.match_percentage = v)) _ 0).trans
      (filter_sortByDesc (fun r : ScoreData => r.match_percentage) v _)

/-- Witness for C3 at a concrete request. -/
theorem c3_ranking_sorted_stable_witness :
    (exceptD (sort_resumes envC procC simZero (str "job") [fileC]) junkResp).candidates.Pairwise
      (fun a b => b.core.match_percentage ≤ a.core.match_percentage) ∧
    ∀ v : ℤ,
      ((exceptD (sort_resumes envC procC simZero (str "job") [fileC]) junkResp).candidates.filter
        (fun c => c.core.match_percentage = v)).map candCore =
      ((([fileC].filterMap (processOne procC)).map (scoreOne simZero (str "job"))).filter
        (fun r => r.match_percentage = v)) :=
  c3_ranking_sorted_stable envC procC simZero (str "job") [fileC]
    (exceptD (sort_resumes envC procC simZero (str "job") [fileC]) junkResp) rfl

/-- C9: with a valid job description and a non-empty upload list, the request
fails (HTTP 400) exactly when no document survives per-document processing;
otherwise it succeeds and returns one result per surviving document — the
candidates are, up to ranking order and id attachment, precisely the scores of
the surviving documents. -/
theorem c9_per_document_failure (env : ReqEnv) (proc : ProcessOracle) (sim : Str → Str → ℚ)
    (jd : Str) (files : List FileUpload)
    (hjd : pyStrip jd ≠ []) (hne : files ≠ []) :
    (files.filterMap (processOne proc) = [] →
      sort_resumes env proc sim jd files = .error 400) ∧
    (files.filterMap (processOne proc) ≠ [] →
      ∃ resp, sort_resumes env proc sim jd files = .ok resp ∧
        resp.candidates.length = (files.filterMap (processOne proc)).length ∧
        (resp.candidates.map candCore).Perm
          ((files.filterMap (processOne proc)).map (scoreOne sim jd))) := by
  constructor
  · intro h0
    unfold sort_resumes
    rw [if_neg hjd, if_neg hne]
    simp only [h0, if_pos]
  · intro h0
    refine ⟨⟨sortByDesc (fun c => c.core.match_percentage)
      ((withIdx (score_resumes sim jd (files.filterMap (processOne proc)))).map
        (fun p => Candidate.mk (env.uuids p.1) p.2)), jd, env.elapsed⟩, ?_, ?_, ?_⟩
    · unfold sort_resumes
      rw [if_neg hjd, if_neg hne]
      simp only [if_neg h0]
    · simp only
      have hlen1 := (sortByDesc_perm (fun c : Candidate => c.core.match_percentage)
        ((withIdx (score_resumes sim jd (files.filterMap (processOne proc)))).map
          (fun p => Candidate.mk (env.uuids p.1) p.2))).length_eq
      rw [hlen1, List.length_map, withIdx, withIdxFrom_length]
      exact (sortByDesc_perm (fun r : ScoreData => r.match_percentage) _).length_eq.trans
        (List.length_map _ _)
    · simp only
      have hperm1 : ((sortByDesc (fun c : Candidate => c.core.match_percentage)
          ((withIdx (score_resumes sim jd (files.filterMap (processOne proc)))).map
            (fun p => Candidate.mk (env.uuids p.1) p.2))).map candCore).Perm
          (((withIdx (score_resumes sim jd (files.filterMap (processOne proc)))).map
            (fun p => Candidate.mk (env.uuids p.1) p.2)).map candCore) :=
        (sortByDesc_perm _ _).map candCore
      refine hperm1.trans ?_
      rw [List.map_map]
      have hcomp :
          (candCore ∘ fun p : ℕ × ScoreData => Candidate.mk (env.uuids p.1) p.2) =
            Prod.snd := rfl
      rw [hcomp, withIdx, withIdxFrom_map_snd]
      exact sortByDesc_perm (fun r : ScoreData => r.match_percentage) _

/-- Witness for C9: a batch with one failing and one surviving document. -/
theorem c9_per_document_failure_witness :
    ([fileBad, fileC].filterMap (processOne procC) = [] →
      sort_resumes envC procC simZero (str "job") [fileBad, fileC] = .error 400) ∧
    ([fileBad, fileC].filterMap (processOne procC) ≠ [] →
      ∃ resp, sort_resumes envC procC simZero (str "job") [fileBad, fileC] = .ok resp ∧
        resp.candidates.length = ([fileBad, fileC].filterMap (processOne procC)).length ∧
        (resp.candidates.map candCore).Perm
          (([fileBad, fileC].filterMap (processOne procC)).map (scoreOne simZero (str "job")))) :=
  c9_per_document_failure envC procC simZero (str "job") [fileBad, fileC]
    (by decide) (by decide)

/-- C2 counterexample: two runs of `sort_resumes` on identical request inputs
but different fresh-UUID draws return different responses (the candidate ids
differ), so the output is not byte-identical across runs. -/
theorem c2_counterexample :
    sort_resumes ⟨fun _ => str "u1", 0⟩ procC simZero (str "job") [fileC] ≠
      sort_resumes ⟨fun _ => str "u2", 0⟩ procC simZero (str "job") [fileC] := by
  intro h
  have h2 := congrArg
    (fun e => (Except.toOption e).map (fun r => r.candidates.map (fun c => c.id))) h
  revert h2
  decide

lemma dictGet_dictSet_self (data : List (Str × ChatRec)) (cid : Str) (rec : ChatRec) :
    dictGet (dictSet data cid rec) cid = some rec := by
  induction data with
  | nil => simp [dictSet, dictGet]
  | cons p ps ih =>
    by_cases hp : p.1 = cid <;> simp [dictSet, dictGet, hp, ih]

lemma dictGet_dictSet_other (data : List (Str × ChatRec)) (cid cid2 : Str) (rec : ChatRec)
    (h : cid2 ≠ cid) : dictGet (dictSet data cid rec) cid2 = dictGet data cid2 := by
  induction data with
  | nil =>
    simp only [dictSet, dictGet]
    rw [if_neg (Ne.symm h)]
  | cons p ps ih =>
    by_cases hp : p.1 = cid
    · simp only [dictSet, if_pos hp, dictGet]
      rw [if_neg (Ne.symm h), if_neg (by rw [hp]; exact Ne.symm h)]
    · simp only [dictSet, if_neg hp, dictGet]
      by_cases hp2 : p.1 = cid2 <;> simp [hp2, ih]

lemma dictGet_dictPop_self (data : List (Str × ChatRec)) (cid : Str) :
    dictGet (dictPop data cid) cid = none := by
  induction data with
  | nil => rfl
  | cons p ps ih =>
    by_cases hp : p.1 = cid <;> simp [dictPop, dictGet, hp, ih]

lemma lastN_length (n : ℕ) (l : List α) : (lastN n l).length = min n l.length := by
  unfold lastN
  rw [List.length_drop]
  omega

/-- C8: for a store with the default bounds (window 60, TTL 86400), writing
`prev` for the transcript stored under `cid` before an `add`: the transcript
after the `add` holds at most 60 messages whenever `prev` did; when `prev` is
full (60 messages) the new message pushes out the oldest (`prev.drop 1`), and
otherwise it is simply appended; a `get` more than 86400 seconds after the
last update returns an empty transcript and evicts the record; a `get` at most
86400 seconds after the last update returns the stored entries in order and
leaves the store unchanged; and an `add` never touches any other conversation
(eviction is checked lazily, on read only). -/
theorem c8_chat_store (st : ChatStore) (cid role text : Str) (now : ℚ)
    (httl : st.ttl = 86400) (hmax : st.max_messages = 60) :
    ((((dictGet st.data cid).getD ⟨[], 0⟩).messages.length ≤ 60 →
      ((dictGet (st.add cid role text now).data cid).getD ⟨[], 0⟩).messages.length ≤ 60) ∧
     (((dictGet st.data cid).getD ⟨[], 0⟩).messages.length = 60 →
      ((dictGet (st.add cid role text now).data cid).getD ⟨[], 0⟩).messages =
        ((dictGet st.data cid).getD ⟨[], 0⟩).messages.drop 1 ++ [⟨role, text, now⟩]) ∧
     (((dictGet st.data cid).getD ⟨[], 0⟩).messages.length < 60 →
      ((dictGet (st.add cid role text now).data cid).getD ⟨[], 0⟩).messages =
        ((dictGet st.data cid).getD ⟨[], 0⟩).messages ++ [⟨role, text, now⟩])) ∧
    (∀ e, dictGet st.data cid = some e → now - e.updated > 86400 →
      st.get cid now = ([], ⟨st.ttl, st.max_messages, dictPop st.data cid⟩) ∧
      dictGet (st.get cid now).2.data cid = none) ∧
    (∀ e, dictGet st.data cid = some e → now - e.updated ≤ 86400 →
      st.get cid now = (e.messages.map (fun m => (m.role, m.text)), st)) ∧
    (∀ cid2, cid2 ≠ cid →
      dictGet (st.add cid role text now).data cid2 = dictGet st.data cid2) := by
  refine ⟨?_, ?_, ?_, ?_⟩
  · simp only [ChatStore.add, dictGet_dictSet_self, Option.getD_some, hmax]
    refine ⟨?_, ?_, ?_⟩
    · intro hle
      by_cases hgt :
          (((dictGet st.data cid).getD (⟨[], 0⟩ : ChatRec)).messages ++
            [(⟨role, text, now⟩ : ChatMsg)]).length > 60
      · rw [if_pos hgt]
        simp only [lastN_length]
        omega
      · rw [if_neg hgt]
        simp only [List.length_append, List.length_singleton] at hgt ⊢
        omega
    · intro hlen
      have hgt :
          (((dictGet st.data cid).getD (⟨[], 0⟩ : ChatRec)).messages ++
            [(⟨role, text, now⟩ : ChatMsg)]).length > 60 := by
        simp only [List.length_append, List.length_singleton]
        omega
      rw [if_pos hgt]
      unfold lastN
      have harith :
          (((dictGet st.data cid).getD ⟨[], 0⟩).messages ++
            [(⟨role, text, now⟩ : ChatMsg)]).length - 60 = 1 := by
        simp only [List.length_append, List.length_singleton]
        omega
      rw [harith, List.drop_append_of_le_length (by omega)]
    · intro hlt
      have hgt :
          ¬ (((dictGet st.data cid).getD ⟨[], 0⟩).messages ++
            [(⟨role, text, now⟩ : ChatMsg)]).length > 60 := by
        simp only [List.length_append, List.length_singleton]
        omega
      rw [if_neg hgt]
  · intro e he hgt
    have hget : st.get cid now = ([], ⟨st.ttl, st.max_messages, dictPop st.data cid⟩) := by
      simp only [ChatStore.get, he]
      rw [if_pos (by rw [httl]; exact hgt)]
    refine ⟨hget, ?_⟩
    rw [hget]
    exact dictGet_dictPop_self st.data cid
  · intro e he hle
    simp only [ChatStore.get, he]
    rw [if_neg (by rw [httl]; exact not_lt.mpr hle)]
  · intro cid2 hne
    simp only [ChatStore.add]
    exact dictGet_dictSet_other st.data cid cid2 _ hne

/-- Witness for C8 at the concrete store. -/
theorem c8_chat_store_witness :
    ((((dictGet stC8.data (str "c1")).getD ⟨[], 0⟩).messages.length ≤ 60 →
      ((dictGet (stC8.add (str "c1") (str "user") (str "again") 6).data
        (str "c1")).getD ⟨[], 0⟩).messages.length ≤ 60) ∧
     (((dictGet stC8.data (str "c1")).getD ⟨[], 0⟩).messages.length = 60 →
      ((dictGet (stC8.add (str "c1") (str "user") (str "again") 6).data
        (str "c1")).getD ⟨[], 0⟩).messages =
        ((dictGet stC8.data (str "c1")).getD ⟨[], 0⟩).messages.drop 1 ++
          [⟨str "user", str "again", 6⟩]) ∧
     (((dictGet stC8.data (str "c1")).getD ⟨[], 0⟩).messages.length < 60 →
      ((dictGet (stC8.add (str "c1") (str "user") (str "again") 6).data
        (str "c1")).getD ⟨[], 0⟩).messages =
        ((dictGet stC8.data (str "c1")).getD ⟨[], 0⟩).messages ++
          [⟨str "user", str "again", 6⟩])) ∧
    (∀ e, dictGet stC8.data (str "c1") = some e → 6 - e.updated > 86400 →
      stC8.get (str "c1") 6 = ([], ⟨stC8.ttl, stC8.max_messages, dictPop stC8.data (str "c1")⟩) ∧
      dictGet (stC8.get (str "c1") 6).2.data (str "c1") = none) ∧
    (∀ e, dictGet stC8.data (str "c1") = some e → 6 - e.updated ≤ 86400 →
      stC8.get (str "c1") 6 = (e.messages.map (fun m => (m.role, m.text)), stC8)) ∧
    (∀ cid2, cid2 ≠ str "c1" →
      dictGet (stC8.add (str "c1") (str "user") (str "again") 6).data cid2 =
        dictGet stC8.data cid2) :=
  c8_chat_store stC8 (str "c1") (str "user") (str "again") 6 rfl rfl

/-- C6 counterexample: for the fixed question "abcd", supplying a conversation
history changes the downstream keyword set (it picks up history tokens such as
"wxyz"), refuting that the set derives from the literal question alone. -/
theorem c6_counterexample :
    kwTokens (qQueryOf (pyStrip (str "abcd")) (ctxOf [] (some [hist0]))) ≠
      kwTokens (qQueryOf (pyStrip (str "abcd")) (ctxOf [] none)) := by
  decide

/-- C6 (amended): the keyword set used downstream is derived from the
context-augmented query `q_query`, not from the literal question alone: equal
rendered contexts give equal keyword sets; the cached history alone — with no
transient payload — contributes no context at all (the context block runs only
under `if history:`); and with empty context the augmented query is exactly
the stripped literal question, so only then is the keyword set
history-independent. -/
theorem c6_keyword_context_amended (q : Str) (serverHist1 serverHist2 : List Hist)
    (history1 history2 : Option (List Hist))
    (h : ctxOf serverHist1 history1 = ctxOf serverHist2 history2) :
    kwTokens (qQueryOf (pyStrip q) (ctxOf serverHist1 history1)) =
      kwTokens (qQueryOf (pyStrip q) (ctxOf serverHist2 history2)) ∧
    (∀ sh : List Hist, ctxOf sh none = []) ∧
    qQueryOf (pyStrip q) [] = pyStrip q := by
  refine ⟨by rw [h], fun sh => rfl, ?_⟩
  unfold qQueryOf
  simp

/-- Witness for C6 (amended): two distinct cache states with no transient
payload render the same (empty) context. -/
theorem c6_keyword_context_amended_witness :
    kwTokens (qQueryOf (pyStrip (str "abcd")) (ctxOf [hist0] none)) =
      kwTokens (qQueryOf (pyStrip (str "abcd")) (ctxOf [] none)) ∧
    (∀ sh : List Hist, ctxOf sh none = []) ∧
    qQueryOf (pyStrip (str "abcd")) [] = pyStrip (str "abcd") :=
  c6_keyword_context_amended (str "abcd") [hist0] [] none none rfl

/-! ### C7: the GPA intent -/

/-- C7 (amended): for a question triggering the GPA intent (mentions
"cgpa"/"gpa", no leadership or experience trigger), independently of the
similarity oracle, the cache and the history: when the cleaned document text
has no GPA/CGPA value the answer is exactly
"CGPA/GPA not explicitly mentioned." with empty evidence; when a value is
present the answer states the first matched value, and the evidence is the
first noise-surviving source line containing a CGPA/GPA word (truncated to 200
characters) — empty when no such line survives the noise filter. -/
theorem c7_gpa_intent_amended (sim : Str → Str → ℚ) (question resume_text : Str)
    (serverHist : List Hist) (history : Option (List Hist))
    (hlead : contains_any (pyLower (pyStrip question)) leadQwords = false)
    (hexp : contains_any (pyLower (pyStrip question)) expWords = false)
    (hgpa : contains_any (pyLower (pyStrip question)) gpaWords = true) :
    (gpaFindall (cleanTxt resume_text) = [] →
      candidateAskCore sim question resume_text serverHist history =
        ⟨str "CGPA/GPA not explicitly mentioned.", [], []⟩) ∧
    (∀ v rest, gpaFindall (cleanTxt resume_text) = v :: rest →
      candidateAskCore sim question resume_text serverHist history =
        ⟨pyStrip (str "CGPA/GPA: " ++ v),
         match (linesOf (cleanTxt resume_text)).find? hasGpaWord with
         | some l => [pyStrip (l.take 200)]
         | none => [],
         match (linesOf (cleanTxt resume_text)).find? hasGpaWord with
         | some _ => [1]
         | none => []⟩) := by
  constructor
  · intro hempty
    simp only [candidateAskCore, hlead, hexp, hgpa, hempty, Bool.false_eq_true, if_false,
      if_true]
    have : pyStrip (str "CGPA/GPA not explicitly mentioned.") =
        str "CGPA/GPA not explicitly mentioned." := by decide
    simp [this]
  · intro v rest hv
    simp only [candidateAskCore, hlead, hexp, hgpa, hv, Bool.false_eq_true, if_false,
      if_true]
    cases hfind : (linesOf (cleanTxt resume_text)).find? hasGpaWord with
    | none => simp [hfind]
    | some l => simp [hfind]

/-- Witness for C7 (amended) at a concrete question and document. -/
theorem c7_gpa_intent_amended_witness :
    (gpaFindall (cleanTxt txtNoGpa) = [] →
      candidateAskCore simZero (str "what is their cgpa") txtNoGpa [] none =
        ⟨str "CGPA/GPA not explicitly mentioned.", [], []⟩) ∧
    (∀ v rest, gpaFindall (cleanTxt txtNoGpa) = v :: rest →
      candidateAskCore simZero (str "what is their cgpa") txtNoGpa [] none =
        ⟨pyStrip (str "CGPA/GPA: " ++ v),
         match (linesOf (cleanTxt txtNoGpa)).find? hasGpaWord with
         | some l => [pyStrip (l.take 200)]
         | none => [],
         match (linesOf (cleanTxt txtNoGpa)).find? hasGpaWord with
         | some _ => [1]
         | none => []⟩) :=
  c7_gpa_intent_amended simZero (str "what is their cgpa") txtNoGpa [] none
    (by decide) (by decide) (by decide)

/-- C7 counterexample: the document "CGPA: 9.2" carries a GPA value, but its
only line is shorter than 25 characters and is filtered as noise, so the
returned evidence is empty — not "the single source line containing it". -/
theorem c7_counterexample :
    gpaFindall (cleanTxt (str "CGPA: 9.2")) = [str "9.2"] ∧
    (candidateAskCore simZero (str "what is their cgpa") (str "CGPA: 9.2") [] none).answer =
      str "CGPA/GPA: 9.2" ∧
    (candidateAskCore simZero (str "what is their cgpa") (str "CGPA: 9.2") [] none).snippets =
      [] := by
  refine ⟨by decide, by decide, by decide⟩

lemma eraseEnv_sort_resumes (env : ReqEnv) (proc : ProcessOracle) (sim : Str → Str → ℚ)
    (jd : Str) (files : List FileUpload) :
    (sort_resumes env proc sim jd files).map eraseEnv =
      (if pyStrip jd = [] then Except.error 400
       else if files = [] then Except.error 400
       else if files.filterMap (processOne proc) = [] then Except.error 400
       else Except.ok (score_resumes sim jd (files.filterMap (processOne proc)), jd)) := by
  unfold sort_resumes
  by_cases h1 : pyStrip jd = []
  · simp [h1, Except.map]
  by_cases h2 : files = []
  · simp [h1, h2, Except.map]
  by_cases h3 : files.filterMap (processOne proc) = []
  · simp [h1, h2, h3, Except.map]
  simp only [if_neg h1, if_neg h2, if_neg h3, Except.map]
  simp only [Except.ok.injEq]
  have hsorted : (score_resumes sim jd (files.filterMap (processOne proc))).Pairwise
      (fun a b => b.match_percentage ≤ a.match_percentage) :=
    sortByDesc_sorted _ _
  unfold eraseEnv
  rw [second_sort_id env _ hsorted]
  simp only [List.map_map]
  have hcomp :
      (candCore ∘ fun p : ℕ × ScoreData => Candidate.mk (env.uuids p.1) p.2) = Prod.snd :=
    rfl
  rw [hcomp, withIdx, withIdxFrom_map_snd]

/-- C2 (amended): given a deterministic embedding provider, `sort_resumes` is
deterministic up to the freshly drawn candidate ids and the measured analysis
time — erasing those, any two environments give identical output — and
`candidate_ask` is a function of its inputs and of the stored transcript it
reads: two cache states holding the same transcript for the conversation id
produce identical answers. As stated (byte-identical full outputs) the claim
fails: see the counterexample. -/
theorem c2_determinism_amended :
    (∀ (env1 env2 : ReqEnv) (proc : ProcessOracle) (sim : Str → Str → ℚ)
      (jd : Str) (files : List FileUpload),
      (sort_resumes env1 proc sim jd files).map eraseEnv =
        (sort_resumes env2 proc sim jd files).map eraseEnv) ∧
    (∀ (sim : Str → Str → ℚ) (question resume_text : Str) (cid : Option Str)
      (history : Option (List Hist)) (st1 st2 : ChatStore) (now1 now2 : ℚ),
      (∀ c, cid = some c → (st1.get c now1).1 = (st2.get c now2).1) →
      (candidate_ask sim question resume_text cid history st1 now1).1 =
        (candidate_ask sim question resume_text cid history st2 now2).1) := by
  constructor
  · intro env1 env2 proc sim jd files
    rw [eraseEnv_sort_resumes, eraseEnv_sort_resumes]
  · intro sim question resume_text cid history st1 st2 now1 now2 h
    cases cid with
    | none => rfl
    | some c =>
      simp only [candidate_ask]
      rw [h c rfl]

/-- Witness for C2 (amended) at concrete environments and cache states. -/
theorem c2_determinism_amended_witness :
    ((sort_resumes ⟨fun _ => str "u1", 0⟩ procC simZero (str "job") [fileC]).map eraseEnv =
      (sort_resumes ⟨fun _ => str "u2", 0⟩ procC simZero (str "job") [fileC]).map eraseEnv) ∧
    ((candidate_ask simZero (str "hi") (str "text") (some (str "c1")) none stC8 6).1 =
      (candidate_ask simZero (str "hi") (str "text") (some (str "c1")) none stC8 6).1) :=
  ⟨c2_determinism_amended.1 ⟨fun _ => str "u1", 0⟩ ⟨fun _ => str "u2", 0⟩ procC simZero
      (str "job") [fileC],
    c2_determinism_amended.2 simZero (str "hi") (str "text") (some (str "c1")) none stC8 stC8
      6 6 (fun _ _ => rfl)⟩
